import Mathlib

/-!
Verification of the multi-agent code-review system of `src/crew.py` against its
design specification.

The repository wires five agents and five tasks and hands them to an external
orchestration engine (`crewai.Crew.kickoff`).  The agent and task definitions
(`create_review_tasks`, `run_code_review`, the module guard) are embedded here
directly from `src/crew.py`.  The orchestration engine itself is not part of the
repository's sources, so it is modelled from the specification: a task-dependency
orchestrator that validates the task graph (`GraphError` on a malformed set),
dispatches tasks in dependency order, records Completed results in an execution
context, substitutes dependency results into dependent prompts before dispatch,
and propagates failures to transitive successors (`WorkerFailure`, fail-fast).
Dispatch is sequential, one task at a time in submission order, which the
specification (section 9) records as the source system's observed behaviour.
-/

/-- Task identity. In the embedded task set a task's id is its position in the
list returned by `create_review_tasks`. -/
abbrev TaskId := Nat

/-- A Worker persona, with the fields an `Agent(...)` of src/crew.py carries.
The persona text is opaque configuration data (spec section 3 and 9). -/
structure Agent where
  role : String
  goal : String
  backstory : String
  llm : String
  verbose : Bool

/-- A Task, with the fields a `Task(...)` of src/crew.py carries: the resolved
description template, the expected-output contract, the owning Worker, and the
dependency identities (`context=[...]` in the source; absent means none). -/
structure MTask where
  id : TaskId
  description : String
  expected_output : String
  agent : Agent
  context : List TaskId
/-- Agent `code_review_engineer` of src/crew.py. -/
def code_review_engineer : Agent where
  role := "Code Review Engineer"
  goal := "Analyze code quality, identify bugs, and ensure adherence to coding standards including Drupal best practices"
  backstory := "You are a senior code review engineer with 12+ years of experience, \n    including deep expertise in Drupal CMS development. You've reviewed thousands of \n    code submissions across PHP, JavaScript, and Python projects.\n    \n    CRITICAL GUIDELINES FOR ACCURATE REVIEWS:\n    - Only flag issues you are CONFIDENT about - avoid false positives\n    - Reference SPECIFIC line numbers or function names for every issue\n    - Distinguish between \"MUST FIX\" (will cause bugs/failures) vs \"SHOULD FIX\" (best practice) vs \"CONSIDER\" (minor improvement)\n    - Skip pedantic style issues that teams routinely ignore (minor whitespace, bracket placement preferences)\n    - If something LOOKS like an issue but might be intentional, say \"Verify if intentional: [issue]\"\n    - Focus on issues that would actually break code or cause maintenance headaches\n    \n    For Drupal projects, you specifically look for:\n    - Drupal coding standards (Drupal CS) compliance - focus on functional issues, not minor formatting\n    - Proper use of the Entity API and Field API\n    - Correct hook implementations (hook_form_alter, hook_preprocess, etc.)\n    - Dependency injection and service usage patterns\n    - Deprecated API usage (especially across major Drupal versions) - db_query(), drupal_set_message(), etc.\n    - Database abstraction layer usage (avoiding raw queries)\n    - Proper use of render arrays and the theme layer\n    - Contrib module integration issues, especially with Workspaces module\n    - Content moderation workflow compatibility\n    - Configuration management best practices (config vs content)\n    \n    For Workspaces module specifically, you check for:\n    - Workspace-safe entity queries\n    - Proper workspace negotiation\n    - Content staging workflow compatibility\n    - Revision handling across workspaces\n    \n    You believe readable code is maintainable code, and you always explain \n    WHY something is an issue and WHAT COULD GO WRONG if not fixed."
  llm := "anthropic/claude-sonnet-4-20250514"
  verbose := true

/-- Agent `security_analyst` of src/crew.py. -/
def security_analyst : Agent where
  role := "Security Analyst"
  goal := "Identify security vulnerabilities, potential exploits, and unsafe coding patterns with expertise in Drupal security"
  backstory := "You are a security analyst specializing in application security \n    with particular expertise in Drupal and PHP security. You have deep knowledge \n    of OWASP Top 10 vulnerabilities and Drupal-specific security concerns.\n    \n    CRITICAL GUIDELINES FOR ACCURATE SECURITY REVIEWS:\n    - Only flag CONFIRMED vulnerabilities - avoid false positives that waste developer time\n    - For each finding, explain the SPECIFIC exploit scenario (how an attacker would actually use this)\n    - Reference EXACT line numbers and code snippets\n    - Categorize accurately:\n      * CRITICAL: Actively exploitable, immediate risk (e.g., SQL injection with user input)\n      * HIGH: Exploitable under certain conditions\n      * MEDIUM: Requires specific circumstances or insider access\n      * LOW: Theoretical risk, defense-in-depth concern\n    - If context is missing (can't tell if input is sanitized elsewhere), say \"VERIFY: [issue] - check if sanitized upstream\"\n    - Don't flag issues that Drupal's framework already protects against (e.g., CSRF on standard forms)\n    - Recognize when Drupal APIs provide built-in protection\n    \n    General security checks:\n    - SQL injection vulnerabilities (especially string concatenation in queries)\n    - Cross-site scripting (XSS) - unsanitized output\n    - Cross-site request forgery (CSRF) - but recognize Drupal Form API handles this\n    - Authentication/authorization weaknesses\n    - Sensitive data exposure\n    - Input validation issues\n    - Insecure configurations\n    \n    Drupal-specific security checks:\n    - Unsafe user input (must use t(), Html::escape(), Xss::filter(), or Twig auto-escaping)\n    - Database queries without placeholders (SQL injection risk) - db_query() with concatenation\n    - Missing access checks on routes and controllers\n    - Improper permission checks (always use $account->hasPermission())\n    - Unsafe file upload handling\n    - Form API security (missing #access controls)\n    - Twig autoescape bypasses (|raw filter misuse) - but recognize legitimate uses\n    - Unserialize vulnerabilities\n    - Private file access bypass\n    - Entity access bypass\n    - Untrusted redirect destinations (open redirect)\n    \n    You are precise and specific. Every finding must be actionable with clear remediation steps."
  llm := "anthropic/claude-sonnet-4-20250514"
  verbose := true

/-- Agent `frontend_engineer` of src/crew.py. -/
def frontend_engineer : Agent where
  role := "Frontend Review Engineer"
  goal := "Review frontend code for accessibility, UI consistency, performance, and modern best practices"
  backstory := "You are a frontend review engineer with expertise in accessible, \n    performant web development. You specialize in reviewing CSS, JavaScript, and \n    Drupal Twig templates.\n    \n    CRITICAL GUIDELINES FOR PRACTICAL FRONTEND REVIEWS:\n    - Focus on issues that ACTUALLY IMPACT USERS, especially accessibility\n    - Reference SPECIFIC elements, selectors, or line numbers\n    - Prioritize:\n      * MUST FIX: Accessibility blockers (no keyboard access, missing alt text on meaningful images, no form labels)\n      * SHOULD FIX: WCAG AA violations that affect usability\n      * CONSIDER: Minor improvements, optimization suggestions\n    - Don't flag subjective style preferences (tabs vs spaces, quote styles)\n    - Recognize that some \"issues\" are team conventions - flag as \"Verify team convention: [issue]\"\n    - For performance, only flag issues that would noticeably impact load time\n    - If code is purely backend, clearly state \"Frontend review: N/A - no frontend code present\"\n    \n    Accessibility checks (WCAG 2.1 AA compliance) - FOCUS HERE:\n    - Proper semantic HTML structure (headings hierarchy, landmarks)\n    - ARIA labels and roles where needed (but don't over-ARIA)\n    - Keyboard navigation support (interactive elements must be focusable)\n    - Color contrast ratios (only flag obvious violations)\n    - Screen reader compatibility\n    - Focus management (especially in modals/dynamic content)\n    - Alt text for meaningful images (decorative images should have empty alt)\n    - Form label associations (every input needs a label)\n    \n    CSS/SCSS best practices - BE PRACTICAL:\n    - BEM or consistent naming methodology (flag inconsistency, not preference)\n    - Avoid !important overuse (more than 2-3 is a red flag)\n    - Responsive design patterns (missing mobile styles is an issue)\n    - CSS specificity wars (overly specific selectors)\n    - Don't flag minor formatting preferences\n    \n    JavaScript best practices:\n    - Modern ES6+ patterns where browser support allows\n    - Drupal.behaviors implementation (for Drupal JS)\n    - Event delegation for dynamic content\n    - Memory leak prevention (unbinding events)\n    - Error handling for async operations\n    - Drupal.t() for translatable strings in Drupal\n    \n    Twig template review (Drupal):\n    - Proper variable escaping (but recognize Twig auto-escapes)\n    - Avoiding complex logic in templates (belongs in preprocess)\n    - Component-based theming patterns\n    \n    Performance considerations - ONLY SIGNIFICANT ISSUES:\n    - Large unoptimized images\n    - Render-blocking resources\n    - Excessive DOM manipulation in loops\n    \n    Be helpful, not pedantic. Developers should trust your findings."
  llm := "anthropic/claude-sonnet-4-20250514"
  verbose := true

/-- Agent `infrastructure_analyst` of src/crew.py. -/
def infrastructure_analyst : Agent where
  role := "Infrastructure Analyst"
  goal := "Review code for infrastructure concerns including caching, configuration management, performance, and deployment readiness"
  backstory := "You are an infrastructure analyst with expertise in Drupal \n    hosting, DevOps practices, and performance optimization. You review code \n    from an operational perspective.\n    \n    CRITICAL GUIDELINES FOR PRACTICAL INFRASTRUCTURE REVIEWS:\n    - Focus on issues that would cause PRODUCTION PROBLEMS or deployment failures\n    - Reference SPECIFIC functions, queries, or configuration\n    - Prioritize:\n      * BLOCKING: Will break deployment or cause outages (missing update hooks, hardcoded prod URLs)\n      * HIGH: Performance issues that would affect users at scale\n      * MEDIUM: Operational concerns that complicate maintenance\n      * LOW: Optimization opportunities\n    - Don't flag theoretical issues - focus on what will actually cause problems\n    - If code is a simple utility/script, state what would matter if it were production code\n    - Recognize that some \"issues\" are acceptable tradeoffs - note them but don't over-flag\n    \n    Caching considerations - DRUPAL SPECIFIC:\n    - Missing cache tags (content won't update when data changes)\n    - Missing cache contexts (wrong content shown to different users/roles)\n    - Operations that bypass render cache without reason\n    - Page cache compatibility issues\n    - Cache metadata bubbling (cache tags not bubbling up to parent)\n    - BigPipe compatibility for dynamic content\n    \n    Configuration management:\n    - Config vs content distinction (don't put content UUIDs in config)\n    - Hardcoded environment-specific values (URLs, API keys, paths)\n    - Config that won't export/import cleanly\n    - Missing config dependencies\n    \n    Database and performance - FOCUS ON REAL ISSUES:\n    - N+1 query problems (queries in loops)\n    - Missing indexes for frequently queried fields\n    - Loading full entities when only IDs needed\n    - Large batch operations without batch API\n    - Memory issues with large result sets (use generators/iterators)\n    - Views with unoptimized queries\n    \n    Deployment and environment:\n    - Update hooks for schema changes\n    - Post-update hooks for data migrations\n    - Hardcoded file paths or URLs\n    - Debug code left in (dpm(), var_dump(), console.log in production code)\n    - Environment detection code that might fail\n    \n    Logging and monitoring:\n    - Missing error handling (silent failures)\n    - Excessive logging that would fill logs\n    - Sensitive data in logs\n    \n    Be practical. Flag issues that would wake someone up at 2am or cause a failed deployment."
  llm := "anthropic/claude-sonnet-4-20250514"
  verbose := true

/-- Agent `tech_lead_reviewer` of src/crew.py. -/
def tech_lead_reviewer : Agent where
  role := "Technical Lead Reviewer"
  goal := "Coordinate the code review process, synthesize all feedback, and make final approval decisions"
  backstory := "You are a technical lead responsible for maintaining code quality \n    and security standards across the engineering organization. You have broad \n    experience across backend, frontend, security, and infrastructure.\n    \n    CRITICAL GUIDELINES FOR FINAL REVIEW:\n    - Your job is to make the developer's life EASIER, not harder\n    - Synthesize findings into a CLEAR, SCANNABLE summary\n    - Remove duplicate findings across agents\n    - Remove false positives or overly pedantic issues\n    - Group related issues together\n    - Provide a prioritized list the developer can work through\n    \n    YOUR OUTPUT MUST BE EASY TO ACT ON:\n    1. Start with the DECISION in bold (APPROVE / REQUEST CHANGES / REJECT)\n    2. List BLOCKING issues first (must fix) - with exact locations\n    3. List HIGH priority issues (should fix) - with exact locations  \n    4. List OPTIONAL improvements (nice to have)\n    5. End with specific next steps\n    \n    Decision criteria:\n    - APPROVE: No blocking issues. Minor issues can be noted but don't hold up merge.\n    - REQUEST CHANGES: Has blocking issues (security vulnerabilities, broken functionality, \n      deployment blockers) that must be fixed. Be specific about what must change.\n    - REJECT: Fundamental architectural problems requiring significant rework. Rare.\n    \n    You're firm but fair:\n    - Don't block for style preferences or minor issues\n    - DO block for security vulnerabilities, broken logic, or deployment risks\n    - Trust developers to address non-blocking feedback in future iterations\n    - If an agent flagged something uncertain (\"Verify if...\"), don't count it as blocking\n    \n    Format findings so developers can CTRL+F to find the exact location in their code.\n    \n    Remember: A good review helps the developer ship better code faster, not slower."
  llm := "anthropic/claude-sonnet-4-20250514"
  verbose := true

/-- Task `quality_task` of create_review_tasks (src/crew.py); its id is its position in the returned list. -/
def quality_task (code_to_review : String) : MTask where
  id := 0
  description := "\n        Analyze the following code for quality issues:\n        \n        ```\n        "
    ++ code_to_review
    ++ "\n        ```\n        \n        Review for:\n        1. Code readability and clarity\n        2. Naming conventions (variables, functions, classes)\n        3. Code structure and organization\n        4. Potential bugs or logic errors\n        5. Adherence to coding standards (including Drupal CS if applicable)\n        6. Areas that would be hard to maintain\n        7. Drupal-specific issues (if Drupal/PHP code):\n           - Hook implementations\n           - Entity API usage\n           - Service and dependency injection patterns\n           - Workspaces module compatibility\n           - Deprecated API usage\n        \n        For each issue found, explain:\n        - What the issue is\n        - Why it matters\n        - How to fix it\n        "
  expected_output := "A structured report with:\n        - Summary of overall code quality (1-2 sentences)\n        - List of issues found, each with:\n          * EXACT location (function name, line number, or code snippet)\n          * Severity: MUST FIX / SHOULD FIX / CONSIDER\n          * What's wrong and WHY it matters\n          * Specific fix recommendation\n        - Drupal-specific issues (if applicable)\n        - What the code does well (positive observations)\n        - Overall quality score (1-10)\n        \n        Format issues so developers can CTRL+F to find them in code."
  agent := code_review_engineer
  context := []

/-- Task `security_task` of create_review_tasks (src/crew.py); its id is its position in the returned list. -/
def security_task (code_to_review : String) : MTask where
  id := 1
  description := "\n        Analyze the following code for security vulnerabilities:\n        \n        ```\n        "
    ++ code_to_review
    ++ "\n        ```\n        \n        Check for:\n        1. Injection vulnerabilities (SQL, command, etc.)\n        2. Cross-site scripting (XSS)\n        3. Authentication/authorization issues\n        4. Sensitive data exposure\n        5. Input validation problems\n        6. Insecure configurations\n        7. Drupal-specific security issues (if applicable):\n           - Unsafe user input handling\n           - Missing access checks\n           - Form API security\n           - Twig template escaping\n           - File upload vulnerabilities\n        \n        For each vulnerability found, explain:\n        - What the vulnerability is\n        - How it could be exploited\n        - The potential impact\n        - How to remediate it\n        "
  expected_output := "A security assessment with:\n        - Executive summary (1-2 sentences on overall security posture)\n        - List of vulnerabilities, each with:\n          * EXACT location (function name, line number, code snippet)\n          * Severity: CRITICAL / HIGH / MEDIUM / LOW\n          * The vulnerability explained simply\n          * SPECIFIC exploit scenario (how an attacker would use this)\n          * Exact remediation code or steps\n        - Items marked \"VERIFY\" if context is missing\n        - Security score (1-10)\n        - BLOCKING issues list (must fix before merge)\n        \n        Be precise. No false positives. Every finding must be actionable."
  agent := security_analyst
  context := []

/-- Task `frontend_task` of create_review_tasks (src/crew.py); its id is its position in the returned list. -/
def frontend_task (code_to_review : String) : MTask where
  id := 2
  description := "\n        Analyze the following code for frontend concerns:\n        \n        ```\n        "
    ++ code_to_review
    ++ "\n        ```\n        \n        Review for:\n        1. Accessibility (WCAG 2.1 AA compliance):\n           - Semantic HTML\n           - ARIA usage\n           - Keyboard navigation\n           - Screen reader compatibility\n        2. CSS/SCSS quality:\n           - Naming conventions\n           - Responsive design\n           - Specificity issues\n        3. JavaScript quality:\n           - Modern patterns (ES6+)\n           - Event handling\n           - Error handling\n           - Drupal.behaviors (if Drupal)\n        4. Twig template quality (if applicable):\n           - Proper escaping\n           - Logic separation\n           - Theme patterns\n        5. Performance:\n           - Asset optimization\n           - Lazy loading\n           - Bundle size concerns\n        \n        For each issue found, explain:\n        - What the issue is\n        - Why it matters for users\n        - How to fix it\n        \n        Note: If the code is purely backend (no frontend components), state that \n        frontend review is not applicable and explain why.\n        "
  expected_output := "A frontend assessment with:\n        - Summary: Is there frontend code? If not, state \"N/A - Backend only\" and stop.\n        - Accessibility issues (most important):\n          * EXACT element or line\n          * WCAG criterion violated (e.g., \"WCAG 2.1 1.1.1 - Non-text Content\")\n          * Impact on users (who is affected and how)\n          * Specific fix\n        - CSS/JS issues (only significant ones)\n        - Twig/template issues (if applicable)\n        - Performance concerns (only if significant)\n        - Frontend score (1-10) or \"N/A\"\n        - BLOCKING issues (accessibility blockers)\n        \n        Focus on user impact. Skip pedantic style preferences."
  agent := frontend_engineer
  context := []

/-- Task `infrastructure_task` of create_review_tasks (src/crew.py); its id is its position in the returned list. -/
def infrastructure_task (code_to_review : String) : MTask where
  id := 3
  description := "\n        Analyze the following code for infrastructure and operational concerns:\n        \n        ```\n        "
    ++ code_to_review
    ++ "\n        ```\n        \n        Review for:\n        1. Caching:\n           - Cache tags and contexts\n           - Cache invalidation\n           - Page cache compatibility\n        2. Configuration management:\n           - Config vs content\n           - Environment-specific code\n           - Config export compatibility\n        3. Database/Performance:\n           - Query efficiency\n           - N+1 problems\n           - Memory usage\n           - Batch processing needs\n        4. Deployment readiness:\n           - Update hooks\n           - Rollback safety\n           - Environment-specific paths/URLs\n           - Debug code removal\n        5. Logging and error handling:\n           - Appropriate logging levels\n           - Error visibility\n        \n        For each issue found, explain:\n        - What the issue is\n        - The operational risk\n        - How to fix it\n        \n        Note: If the code is a simple script without infrastructure implications,\n        state what considerations would apply if this were production code.\n        "
  expected_output := "An infrastructure assessment with:\n        - Summary: Will this deploy cleanly and perform at scale? (1-2 sentences)\n        - BLOCKING deployment issues (will break deployment):\n          * Exact location and what's wrong\n          * Why it will fail\n          * How to fix\n        - Performance issues (will affect users at scale):\n          * Exact query or operation\n          * Expected impact\n          * How to optimize\n        - Caching issues (if Drupal):\n          * Missing cache tags/contexts\n          * Impact on cache invalidation\n        - Configuration concerns\n        - Debug code that must be removed\n        - Infrastructure score (1-10)\n        - BLOCKING issues list\n        \n        Focus on what would cause a 2am wake-up call or failed deployment."
  agent := infrastructure_analyst
  context := []

/-- Task `decision_task` of create_review_tasks (src/crew.py); its id is its position in the returned list. -/
def decision_task (code_to_review : String) : MTask where
  id := 4
  description := "\n        Based on the code quality analysis, security review, frontend review, and \n        infrastructure review provided by your colleagues, make a final review \n        decision for this code:\n        \n        ```\n        "
    ++ code_to_review
    ++ "\n        ```\n        \n        Consider:\n        1. Severity of code quality issues found\n        2. Severity of security vulnerabilities found\n        3. Accessibility and frontend concerns\n        4. Infrastructure and deployment risks\n        5. Overall risk of merging this code\n        6. Effort required to address the issues\n        \n        Make a clear decision: APPROVE, REQUEST CHANGES, or REJECT\n        "
  expected_output := "A final review decision formatted for easy scanning:\n\n        ## DECISION: [APPROVE / REQUEST CHANGES / REJECT]\n        \n        **Rationale:** (2-3 sentences explaining the decision)\n        \n        ### ðŸš« BLOCKING - Must Fix Before Merge\n        (Numbered list with exact locations - or \"None\" if clean)\n        \n        ### âš ï¸ HIGH PRIORITY - Should Fix\n        (Numbered list with exact locations - or \"None\")\n        \n        ### ðŸ’¡ SUGGESTIONS - Optional Improvements\n        (Bulleted list - or \"None\")\n        \n        ### âœ… Next Steps\n        (Specific actions for the developer)\n        \n        ---\n        Remove duplicates across agents. Be concise. Make it easy to act on."
  agent := tech_lead_reviewer
  context := [0, 1, 2, 3]

/-- create_review_tasks of src/crew.py: the five review tasks with the code embedded. -/
def create_review_tasks (code_to_review : String) : List MTask :=
  [quality_task code_to_review, security_task code_to_review, frontend_task code_to_review, infrastructure_task code_to_review, decision_task code_to_review]
/-- Modelled from the spec: the outcome of one call to the external inference
collaborator (section 6) — unreachable, an error status, or generated text. -/
inductive InferenceResult where
  | unreachable : InferenceResult
  | errorStatus : Nat → InferenceResult
  | response : String → InferenceResult

/-- Modelled from the spec: a `WorkerFailure` carries the Worker identity and
the underlying cause (section 4.1). -/
structure WorkerFailure where
  worker : String
  cause : String
deriving DecidableEq

/-- Modelled from the spec (section 4.1): a Worker's execution classifies the
collaborator's answer. Unreachable collaborator, error status and empty
response are all `WorkerFailure`s; a nonempty response is returned verbatim,
never a substituted default. -/
def executeWorker (agent : Agent) (answer : InferenceResult) : Except WorkerFailure String :=
  match answer with
  | .unreachable => .error ⟨agent.role, "collaborator unreachable"⟩
  | .errorStatus c => .error ⟨agent.role, "collaborator returned error status " ++ toString c⟩
  | .response t =>
      if t = "" then .error ⟨agent.role, "collaborator response is empty"⟩ else .ok t

/-- Modelled from the spec (section 7): a malformed task set — a dependency
identity referring to no task of the set, a cycle (the unschedulable
identities are reported), or a duplicated task identity. -/
inductive GraphError where
  | missingDep : TaskId → TaskId → GraphError
  | cycle : List TaskId → GraphError
  | duplicateId : GraphError
deriving DecidableEq

/-- Modelled from the spec (section 7): the run-level error — a `GraphError`
surfaced before anything is dispatched, or the originating failed Task with its
`WorkerFailure` (the first failure along the critical path, not every
downstream failure), or an internal invariant violation. -/
inductive RunError where
  | graph : GraphError → RunError
  | rootFailure : TaskId → WorkerFailure → RunError
  | internalError : RunError
deriving DecidableEq

/-- Modelled from the spec (section 3): a Task's terminal status with its data —
Completed with its Result, Failed by its own `WorkerFailure`, or Failed by
propagation from the originating failed task `root`. -/
inductive Outcome where
  | completed : String → Outcome
  | failedOwn : WorkerFailure → Outcome
  | failedDep : TaskId → Outcome
deriving DecidableEq

/-- Modelled from the spec: the mutable state of one orchestration run — the
outcome store (whose Completed entries are the Execution Context, keyed by task
identity, write-once) and the Worker invocations issued so far, each with the
fully resolved prompt it was dispatched with. -/
structure RunState where
  outcomes : List (TaskId × Outcome)
  invocations : List (TaskId × String)

/-- Lookup in an association list keyed by task identity (first match). -/
def alookup {α : Type} : List (TaskId × α) → TaskId → Option α
  | [], _ => none
  | (k, v) :: l, i => if k = i then some v else alookup l i

/-- The task of the set carrying a given identity, if any. -/
def findTask (tasks : List MTask) (i : TaskId) : Option MTask :=
  tasks.find? (fun t => decide (t.id = i))

/-- The Execution Context view of the outcome store: the Result of a Completed
task, `none` otherwise. -/
def ctxOf (st : RunState) (i : TaskId) : Option String :=
  match alookup st.outcomes i with
  | some (.completed s) => some s
  | _ => none

/-- Concatenation of a list of text segments. -/
def concatAll : List String → String
  | [] => ""
  | s :: l => s ++ concatAll l

/-- The role of the Worker owning the task with the given identity. -/
def workerRoleOf (tasks : List MTask) (d : TaskId) : String :=
  match findTask tasks d with
  | some u => u.agent.role
  | none => "unknown"

/-- Modelled from the spec (section 4.4): the section a dependency contributes
to a dependent's prompt — a delimiter identifying the Worker that produced the
Result, then the Result from the Execution Context. -/
def depSection (tasks : List MTask) (st : RunState) (d : TaskId) : String :=
  "\n\n--- Result from " ++ workerRoleOf tasks d ++ " ---\n" ++
    (match ctxOf st d with
     | some s => s
     | none => "")

/-- Modelled from the spec (section 4.3 b): before dispatch the Task's
description template is resolved — for each dependency identity its Result from
the Execution Context is substituted in, with delimiters naming the producing
Worker. The engine never dispatches before every dependency is Completed, so
the defaulted missing-Result branch of `depSection` is dead in any run. -/
def resolveTemplate (tasks : List MTask) (st : RunState) (t : MTask) : String :=
  t.description ++ concatAll (t.context.map (depSection tasks st))

/-- The originating failed task behind a dependency, if that dependency is
Failed: the dependency itself when it failed on its own, or the root recorded
when it failed by propagation. -/
def depFailRoot (st : RunState) (d : TaskId) : Option TaskId :=
  match alookup st.outcomes d with
  | some (.failedOwn _) => some d
  | some (.failedDep r) => some r
  | _ => none

/-- The first Failed dependency's originating task, scanning the declared
dependency identities in order. -/
def findFailedDep (st : RunState) : List TaskId → Option TaskId
  | [] => none
  | d :: ds =>
      match depFailRoot st d with
      | some r => some r
      | none => findFailedDep st ds

/-- Modelled from the spec (section 4.3 c-d): processing one scheduled task.
If some dependency is Failed, the task is marked Failed by propagation without
its Worker being invoked; otherwise the template is resolved, the Worker is
invoked once, and the task is marked Completed with its Result or Failed with
its `WorkerFailure`. -/
def execStep (infer : Agent → String → InferenceResult) (tasks : List MTask)
    (st : RunState) (i : TaskId) : RunState :=
  match findTask tasks i with
  | none => st
  | some t =>
      match findFailedDep st t.context with
      | some r => { st with outcomes := (i, .failedDep r) :: st.outcomes }
      | none =>
          let p := resolveTemplate tasks st t
          match executeWorker t.agent (infer t.agent p) with
          | .ok s =>
              { outcomes := (i, .completed s) :: st.outcomes,
                invocations := st.invocations ++ [(i, p)] }
          | .error f =>
              { outcomes := (i, .failedOwn f) :: st.outcomes,
                invocations := st.invocations ++ [(i, p)] }

/-- Modelled from the spec (sections 4.3 and 9): sequential dispatch of the
scheduled order, one task at a time. -/
def execAll (infer : Agent → String → InferenceResult) (tasks : List MTask) :
    List TaskId → RunState → RunState
  | [], st => st
  | i :: rest, st => execAll infer tasks rest (execStep infer tasks st i)

/-- The identities of the submitted tasks. -/
def taskIds (tasks : List MTask) : List TaskId :=
  tasks.map (fun t => t.id)

/-- Modelled from the spec (section 4.2): the tasks whose unresolved-dependency
count is zero — not yet scheduled and with every declared dependency already
scheduled (hence Completed before them under sequential dispatch). -/
def eligible (tasks : List MTask) (acc : List TaskId) : List MTask :=
  tasks.filter (fun t => decide (t.id ∉ acc ∧ ∀ d ∈ t.context, d ∈ acc))

/-- One scheduling round: append every currently eligible task's identity. -/
def schedulerRound (tasks : List MTask) (acc : List TaskId) : List TaskId :=
  acc ++ (eligible tasks acc).map (fun t => t.id)

/-- Kahn-style rounds (spec section 4.3): repeatedly schedule every task whose
dependencies are all scheduled. `tasks.length` rounds are enough for any valid
DAG. -/
def buildOrderAux (tasks : List MTask) : Nat → List TaskId → List TaskId
  | 0, acc => acc
  | n + 1, acc => buildOrderAux tasks n (schedulerRound tasks acc)

/-- Modelled from the spec (section 4.2): graph construction and validation.
Checks identity uniqueness, that every dependency identity refers to a task of
the set, and materializes a dependency-respecting dispatch order; a task set
that cannot be fully scheduled contains a cycle, reported as a `GraphError`
with the unschedulable identities. (The spec words cycle detection as a
depth-first traversal; the modelled builder detects the same sets by the
failure of Kahn-style scheduling, which is what its scheduler runs anyway.) -/
def findMissingDep (tasks : List MTask) : Option (TaskId × TaskId) :=
  match tasks.find? (fun t => t.context.any (fun d => decide (d ∉ taskIds tasks))) with
  | none => none
  | some t =>
      match t.context.find? (fun d => decide (d ∉ taskIds tasks)) with
      | none => none
      | some d => some (t.id, d)

/-- Modelled from the spec (section 4.2): validate the task set and produce the
dispatch order, or fail with a `GraphError` before anything is dispatched. -/
def buildOrder (tasks : List MTask) : Except GraphError (List TaskId) :=
  if (taskIds tasks).Nodup then
    match findMissingDep tasks with
    | some (t, d) => .error (.missingDep t d)
    | none =>
        if decide (∀ t ∈ tasks, t.id ∈ buildOrderAux tasks tasks.length []) then
          .ok (buildOrderAux tasks tasks.length [])
        else
          .error (.cycle ((taskIds tasks).filter
            (fun i => decide (i ∉ buildOrderAux tasks tasks.length []))))
  else .error .duplicateId

/-- The designated terminal task: the last of the submitted list (the engine of
the source returns the last task's output as the run's result). -/
def terminalId (tasks : List MTask) : TaskId :=
  match tasks.getLast? with
  | some t => t.id
  | none => 0

/-- Modelled from the spec (section 7): the run-level report read off the final
state — the terminal task's Result when Completed, else the originating failed
task (the recorded root, itself own-failed) with its `WorkerFailure`. -/
def runResult (tasks : List MTask) (st : RunState) : Except RunError String :=
  match alookup st.outcomes (terminalId tasks) with
  | some (.completed s) => .ok s
  | some (.failedOwn f) => .error (.rootFailure (terminalId tasks) f)
  | some (.failedDep r) =>
      match alookup st.outcomes r with
      | some (.failedOwn f) => .error (.rootFailure r f)
      | _ => .error .internalError
  | none => .error .internalError

/-- Modelled from the spec (sections 4.3 and 6): one orchestration run.
Validates the graph (a `GraphError` is surfaced with zero Worker invocations),
executes the dispatch order, and reports via `runResult` the terminal task's
Result, or the originating failed task with its `WorkerFailure` when the
terminal task (or an ancestor) Failed. -/
def runCrew (tasks : List MTask) (infer : Agent → String → InferenceResult) :
    Except RunError String × RunState :=
  match buildOrder tasks with
  | .error e => (.error (.graph e), ⟨[], []⟩)
  | .ok ord =>
      (runResult tasks (execAll infer tasks ord ⟨[], []⟩),
        execAll infer tasks ord ⟨[], []⟩)

/-- run_code_review of src/crew.py: build the five review tasks for the given
code and run the crew over them, returning the run's result (the terminal
task's output or a structured error) together with the run state the engine
accumulated. The inference collaborator is a parameter (spec section 6). -/
def run_code_review (infer : Agent → String → InferenceResult) (code : String) :
    Except RunError String × RunState :=
  runCrew (create_review_tasks code) infer

/-- The module-import guard of src/crew.py: after `load_dotenv()`, a missing or
empty ANTHROPIC_API_KEY environment variable raises
`ValueError("ANTHROPIC_API_KEY not found. Check your .env file!")`, so the
module (and with it `run_code_review`) only loads with a configured
credential. `env` is the process environment after the .env file is loaded. -/
def load_crew_module (env : String → Option String) :
    Except String ((Agent → String → InferenceResult) → String →
      Except RunError String × RunState) :=
  if (env "ANTHROPIC_API_KEY").getD "" = "" then
    .error "ANTHROPIC_API_KEY not found. Check your .env file!"
  else
    .ok run_code_review

/-- Task `a` declares `b` among its dependency identities. -/
def depends1 (tasks : List MTask) (a b : TaskId) : Prop :=
  ∃ t ∈ tasks, t.id = a ∧ b ∈ t.context

/-- `a` transitively depends on `b`. -/
def dependsOn (tasks : List MTask) (a b : TaskId) : Prop :=
  Relation.TransGen (depends1 tasks) a b

/-- The task set contains a dependency cycle. -/
def HasCycle (tasks : List MTask) : Prop :=
  ∃ a, dependsOn tasks a a

/-- Some task's dependency identity refers to no task of the set. -/
def HasDanglingDep (tasks : List MTask) : Prop :=
  ∃ t ∈ tasks, ∃ d ∈ t.context, d ∉ taskIds tasks

/-- A list of identities is a topological order of the task set: no repeats,
exactly the task identities, and every dependency strictly precedes its
dependent. `listPos` is the position of the first occurrence. -/
def listPos : List TaskId → TaskId → Nat
  | [], _ => 0
  | a :: l, x => if a = x then 0 else listPos l x + 1

/-- The topological-order property of a candidate dispatch order. -/
def TopoOrder (tasks : List MTask) (l : List TaskId) : Prop :=
  l.Nodup ∧ (∀ i ∈ l, ∃ t ∈ tasks, t.id = i) ∧ (∀ t ∈ tasks, t.id ∈ l) ∧
    ∀ t ∈ tasks, ∀ d ∈ t.context, d ∈ l ∧ listPos l d < listPos l t.id

/-- The task set forms a valid DAG: unique identities and some topological
order exists (the standard characterization of acyclicity with no dangling
dependencies). -/
def ValidDAG (tasks : List MTask) : Prop :=
  (taskIds tasks).Nodup ∧ ∃ l, TopoOrder tasks l

/-- Every collaborator call answers with nonempty generated text (no Worker
failure occurs in the run). -/
def AllOk (infer : Agent → String → InferenceResult) : Prop :=
  ∀ a p, ∃ s, infer a p = .response s ∧ s ≠ ""

/-- Dependency order restricted to a dispatch list: every dependency of a
listed task is listed strictly earlier. -/
def DepOrderedL (tasks : List MTask) (l : List TaskId) : Prop :=
  ∀ t ∈ tasks, t.id ∈ l → ∀ d ∈ t.context, d ∈ l ∧ listPos l d < listPos l t.id

/-- A text contains another verbatim as a contiguous substring. -/
def ContainsStr (s sub : String) : Prop :=
  ∃ pre post, s = pre ++ (sub ++ post)

/-- A stub collaborator that always answers with the fixed text "ok". -/
def stubInfer : Agent → String → InferenceResult :=
  fun _ _ => .response "ok"

/-- A stub collaborator that is unreachable exactly for the Security Analyst
and answers "ok" for every other Worker. -/
def failSecurityInfer : Agent → String → InferenceResult :=
  fun a _ => if a.role = "Security Analyst" then .unreachable else .response "ok"

/-- A bare stub Worker for hand-built task sets. -/
def stubAgent : Agent :=
  ⟨"Stub Worker", "", "", "", false⟩

/-- A two-task set whose dependencies form a cycle (0 depends on 1 and 1 on 0). -/
def cyclicTasks : List MTask :=
  [⟨0, "", "", stubAgent, [1]⟩, ⟨1, "", "", stubAgent, [0]⟩]

/-- A task whose single dependency identity refers to no task of its set. -/
def danglingTasks : List MTask :=
  [⟨0, "", "", stubAgent, [7]⟩]

/-- The invariant the sequential executor maintains over the processed prefix
`procd` of the dispatch order: outcome keys are exactly the processed tasks;
invocations are processed tasks, listed in dispatch order; Completed and
own-Failed outcomes record a real Worker invocation with its resolved prompt;
propagated failures point to an own-failed originating ancestor and record no
invocation; a processed task either has a propagated failure or had every
dependency Completed; every issued prompt is the owning task's template with
every dependency's Completed Result substituted. -/
structure ExecInv (infer : Agent → String → InferenceResult) (tasks : List MTask)
    (procd : List TaskId) (st : RunState) : Prop where
  keys : ∀ i, (alookup st.outcomes i).isSome ↔ i ∈ procd
  inv_procd : ∀ i p, (i, p) ∈ st.invocations → i ∈ procd
  inv_sub : List.Sublist (st.invocations.map Prod.fst) procd
  prov_ok : ∀ i s, alookup st.outcomes i = some (.completed s) →
    ∃ t p, findTask tasks i = some t ∧ (i, p) ∈ st.invocations ∧
      executeWorker t.agent (infer t.agent p) = .ok s
  prov_err : ∀ i f, alookup st.outcomes i = some (.failedOwn f) →
    ∃ t p, findTask tasks i = some t ∧ (i, p) ∈ st.invocations ∧
      executeWorker t.agent (infer t.agent p) = .error f
  dep_root : ∀ i r, alookup st.outcomes i = some (.failedDep r) →
    (∃ f, alookup st.outcomes r = some (.failedOwn f)) ∧ dependsOn tasks i r ∧
      ∀ p, (i, p) ∉ st.invocations
  step_shape : ∀ t ∈ tasks, t.id ∈ procd →
    (∃ r, alookup st.outcomes t.id = some (.failedDep r)) ∨
      ∀ d ∈ t.context, ∃ s, alookup st.outcomes d = some (.completed s)
  inv_prompt : ∀ i p, (i, p) ∈ st.invocations →
    ∃ t, findTask tasks i = some t ∧ p = resolveTemplate tasks st t ∧
      ∀ d ∈ t.context, ∃ s, alookup st.outcomes d = some (.completed s)
/-- A member segment of a concatenation is a contiguous substring of any text
ending in that concatenation. -/
theorem concatAll_contains {x : String} {l : List String} (hx : x ∈ l) :
    ∀ s : String, ∃ pre post, s ++ concatAll l = pre ++ (x ++ post) := by
  induction l with
  | nil => cases hx
  | cons y l ih =>
      intro s
      rcases List.mem_cons.mp hx with h | h
      · subst h
        exact ⟨s, concatAll l, by simp [concatAll, String.append_assoc]⟩
      · rcases ih h (s ++ y) with ⟨pre, post, hp⟩
        exact ⟨pre, post, by simpa [concatAll, String.append_assoc] using hp⟩

theorem alookup_cons_self {α : Type} {v : α} {l : List (TaskId × α)} {i : TaskId} :
    alookup ((i, v) :: l) i = some v := by
  simp [alookup]

theorem alookup_cons_ne {α : Type} {v : α} {l : List (TaskId × α)} {i k : TaskId}
    (h : k ≠ i) : alookup ((k, v) :: l) i = alookup l i := by
  simp [alookup, h]

theorem listPos_append_of_mem {l₁ l₂ : List TaskId} {x : TaskId} (h : x ∈ l₁) :
    listPos (l₁ ++ l₂) x = listPos l₁ x := by
  induction l₁ with
  | nil => cases h
  | cons a l ih =>
      by_cases ha : a = x
      · simp [listPos, ha]
      · rcases List.mem_cons.mp h with h' | h'
        · exact absurd h'.symm ha
        · simp [listPos, ha, ih h']

theorem listPos_append_of_not_mem {l₁ : List TaskId} (l₂ : List TaskId) {x : TaskId}
    (h : x ∉ l₁) : listPos (l₁ ++ l₂) x = l₁.length + listPos l₂ x := by
  induction l₁ with
  | nil => simp
  | cons a l ih =>
      have ha : a ≠ x := fun e => h (e ▸ List.mem_cons_self a l)
      have h' : x ∉ l := fun hx => h (List.mem_cons_of_mem a hx)
      simp [listPos, ha, ih h']
      omega

theorem listPos_lt_length {l : List TaskId} {x : TaskId} (h : x ∈ l) :
    listPos l x < l.length := by
  induction l with
  | nil => cases h
  | cons a l ih =>
      by_cases ha : a = x
      · simp [listPos, ha]
      · rcases List.mem_cons.mp h with h' | h'
        · exact absurd h'.symm ha
        · simpa [listPos, ha] using ih h'

/-- The task found for an identity is a member of the set carrying it. -/
theorem findTask_eq_some {tasks : List MTask} {i : TaskId} {t : MTask}
    (h : findTask tasks i = some t) : t ∈ tasks ∧ t.id = i := by
  refine ⟨List.mem_of_find?_eq_some h, ?_⟩
  have := List.find?_some h
  simpa using this

/-- An identity carried by some task is found. -/
theorem findTask_isSome {tasks : List MTask} {i : TaskId}
    (h : ∃ t ∈ tasks, t.id = i) : ∃ u, findTask tasks i = some u := by
  rcases h with ⟨t, ht, hi⟩
  induction tasks with
  | nil => cases ht
  | cons a l ih =>
      by_cases ha : a.id = i
      · exact ⟨a, by simp [findTask, List.find?, ha]⟩
      · rcases List.mem_cons.mp ht with h' | h'
        · exact absurd (h' ▸ hi) ha
        · rcases ih h' with ⟨u, hu⟩
          exact ⟨u, by simpa [findTask, List.find?, ha] using hu⟩

/-- A sublist of a list with no repeats that contains every member of the
longer list is that list. -/
theorem sublist_eq_of_superset {l₁ l₂ : List TaskId} (hs : List.Sublist l₁ l₂)
    (hnd : l₂.Nodup) (hsup : ∀ x ∈ l₂, x ∈ l₁) : l₁ = l₂ := by
  have hle : l₂.length ≤ l₁.length := (hnd.subperm hsup).length_le
  exact hs.eq_of_length (Nat.le_antisymm hs.length_le hle)
theorem mem_eligible {tasks : List MTask} {acc : List TaskId} {t : MTask} :
    t ∈ eligible tasks acc ↔ t ∈ tasks ∧ t.id ∉ acc ∧ ∀ d ∈ t.context, d ∈ acc := by
  simp [eligible, List.mem_filter, and_assoc]

theorem mem_schedulerRound_of_mem {tasks : List MTask} {acc : List TaskId} {x : TaskId}
    (h : x ∈ acc) : x ∈ schedulerRound tasks acc :=
  List.mem_append_left _ h

theorem mem_buildOrderAux_of_mem {tasks : List MTask} {x : TaskId} :
    ∀ {n : Nat} {acc : List TaskId}, x ∈ acc → x ∈ buildOrderAux tasks n acc := by
  intro n
  induction n with
  | zero => intro acc h; exact h
  | succ n ih => intro acc h; exact ih (mem_schedulerRound_of_mem h)

theorem mem_ids_of_mem_schedulerRound {tasks : List MTask} {acc : List TaskId} {x : TaskId}
    (h : x ∈ schedulerRound tasks acc) : x ∈ acc ∨ x ∈ taskIds tasks := by
  rcases List.mem_append.mp h with h | h
  · exact Or.inl h
  · right
    rcases List.mem_map.mp h with ⟨t, ht, rfl⟩
    exact List.mem_map_of_mem _ (mem_eligible.mp ht).1

theorem schedulerRound_nodup {tasks : List MTask} {acc : List TaskId}
    (hids : (taskIds tasks).Nodup) (hacc : acc.Nodup) :
    (schedulerRound tasks acc).Nodup := by
  rw [schedulerRound, List.nodup_append]
  refine ⟨hacc, ?_, ?_⟩
  · exact hids.sublist ((List.filter_sublist tasks).map (fun t => t.id))
  · intro a ha hmem
    rcases List.mem_map.mp hmem with ⟨t, ht, rfl⟩
    exact (mem_eligible.mp ht).2.1 ha

theorem schedulerRound_depOrdered {tasks : List MTask} {acc : List TaskId}
    (hids : (taskIds tasks).Nodup) (h : DepOrderedL tasks acc) :
    DepOrderedL tasks (schedulerRound tasks acc) := by
  intro t ht hmem d hd
  simp only [schedulerRound] at hmem ⊢
  rcases List.mem_append.mp hmem with hin | hnew
  · rcases h t ht hin d hd with ⟨hdin, hlt⟩
    exact ⟨List.mem_append_left _ hdin,
      by rw [listPos_append_of_mem hdin, listPos_append_of_mem hin]; exact hlt⟩
  · rcases List.mem_map.mp hnew with ⟨u, hu, huid⟩
    have huel := mem_eligible.mp hu
    have htu : t = u := List.inj_on_of_nodup_map hids ht huel.1 huid.symm
    have hdin : d ∈ acc := huel.2.2 d (htu ▸ hd)
    rw [← htu] at huel
    refine ⟨List.mem_append_left _ hdin, ?_⟩
    rw [listPos_append_of_mem hdin, listPos_append_of_not_mem _ huel.2.1]
    exact Nat.lt_of_lt_of_le (listPos_lt_length hdin) (Nat.le_add_right _ _)

/-- The invariant the scheduling rounds preserve: no repeats, only task
identities, dependencies listed strictly before dependents. -/
theorem buildOrderAux_inv {tasks : List MTask} (hids : (taskIds tasks).Nodup) :
    ∀ (n : Nat) (acc : List TaskId),
      acc.Nodup ∧ (∀ x ∈ acc, x ∈ taskIds tasks) ∧ DepOrderedL tasks acc →
      (buildOrderAux tasks n acc).Nodup ∧
        (∀ x ∈ buildOrderAux tasks n acc, x ∈ taskIds tasks) ∧
        DepOrderedL tasks (buildOrderAux tasks n acc) := by
  intro n
  induction n with
  | zero => intro acc h; exact h
  | succ n ih =>
      intro acc h
      refine ih _ ⟨schedulerRound_nodup hids h.1, ?_, schedulerRound_depOrdered hids h.2.2⟩
      intro x hx
      rcases mem_ids_of_mem_schedulerRound hx with hx | hx
      · exact h.2.1 x hx
      · exact hx

theorem findMissingDep_some {tasks : List MTask} {a d : TaskId}
    (h : findMissingDep tasks = some (a, d)) :
    ∃ t ∈ tasks, t.id = a ∧ d ∈ t.context ∧ d ∉ taskIds tasks := by
  unfold findMissingDep at h
  split at h
  · exact absurd h (by simp)
  · next t hfind =>
      split at h
      · exact absurd h (by simp)
      · next d' hfind2 =>
          obtain ⟨rfl, rfl⟩ : t.id = a ∧ d' = d := by
            simpa [Prod.ext_iff] using h
          have hd := List.find?_some hfind2
          simp only [decide_eq_true_eq] at hd
          exact ⟨t, List.mem_of_find?_eq_some hfind,
            rfl, List.mem_of_find?_eq_some hfind2, hd⟩

theorem findMissingDep_none {tasks : List MTask}
    (h : HasDanglingDep tasks) : findMissingDep tasks ≠ none := by
  rcases h with ⟨t, ht, d, hd, hnot⟩
  unfold findMissingDep
  split
  · next hfind =>
      exfalso
      have := List.find?_eq_none.mp hfind t ht
      simp only [List.any_eq_true, decide_eq_true_eq] at this
      exact this ⟨d, hd, hnot⟩
  · next t' hfind =>
      have hp := List.find?_some hfind
      simp only [List.any_eq_true, decide_eq_true_eq] at hp
      rcases hp with ⟨d', hd', hnot'⟩
      split
      · next hfind2 =>
          exact absurd (List.find?_eq_none.mp hfind2 d' hd') (by simp [hnot'])
      · simp

/-- What a successful graph construction guarantees about the dispatch order. -/
theorem buildOrder_ok_spec {tasks : List MTask} {ord : List TaskId}
    (h : buildOrder tasks = .ok ord) :
    (taskIds tasks).Nodup ∧ ord.Nodup ∧ (∀ x ∈ ord, x ∈ taskIds tasks) ∧
      DepOrderedL tasks ord ∧ ∀ t ∈ tasks, t.id ∈ ord := by
  unfold buildOrder at h
  split at h
  · next hnd =>
      split at h
      · exact absurd h (by simp)
      · split at h
        · next hall =>
            obtain rfl : buildOrderAux tasks tasks.length [] = ord := by
              simpa using h
            have hinv := buildOrderAux_inv hnd tasks.length []
              ⟨List.nodup_nil, by simp, by intro t ht hmem d hd; cases hmem⟩
            simp only [decide_eq_true_eq] at hall
            exact ⟨hnd, hinv.1, hinv.2.1, hinv.2.2, hall⟩
        · exact absurd h (by simp)
  · exact absurd h (by simp)

/-- Along a dispatch order that respects dependencies, a transitive dependency
stands strictly earlier than its dependent. -/
theorem listPos_lt_of_dependsOn {tasks : List MTask} {ord : List TaskId} {a b : TaskId}
    (hord : DepOrderedL tasks ord) (hall : ∀ t ∈ tasks, t.id ∈ ord)
    (h : dependsOn tasks a b) : listPos ord b < listPos ord a := by
  induction h with
  | single e =>
      rcases e with ⟨t, ht, rfl, hb⟩
      exact (hord t ht (hall t ht) _ hb).2
  | tail _ e ih =>
      rcases e with ⟨t, ht, rfl, hc⟩
      exact Nat.lt_trans (hord t ht (hall t ht) _ hc).2 ih

/-- A cyclic or dangling task set never yields a dispatch order. -/
theorem buildOrder_ne_ok_of_malformed {tasks : List MTask}
    (h : HasCycle tasks ∨ HasDanglingDep tasks) :
    ∀ ord, buildOrder tasks ≠ .ok ord := by
  intro ord hok
  obtain ⟨hnd, hondup, hsub, hord, hall⟩ := buildOrder_ok_spec hok
  rcases h with hcyc | hdang
  · rcases hcyc with ⟨a, ha⟩
    exact Nat.lt_irrefl _ (listPos_lt_of_dependsOn hord hall ha)
  · rcases hdang with ⟨t, ht, d, hd, hnot⟩
    have := (hord t ht (hall t ht) d hd).1
    exact hnot (hsub d this)

/-- A cyclic or dangling task set makes graph construction fail. -/
theorem buildOrder_error_of_malformed {tasks : List MTask}
    (h : HasCycle tasks ∨ HasDanglingDep tasks) :
    ∃ e, buildOrder tasks = .error e := by
  cases hb : buildOrder tasks with
  | error e => exact ⟨e, rfl⟩
  | ok ord => exact absurd hb (buildOrder_ne_ok_of_malformed h ord)
theorem topo_mem_ids {tasks : List MTask} {L : List TaskId}
    (ht : TopoOrder tasks L) : ∀ x ∈ L, x ∈ taskIds tasks := by
  intro x hx
  rcases ht.2.1 x hx with ⟨t, htt, rfl⟩
  exact List.mem_map_of_mem _ htt

/-- One round schedules the next element of a topological order. -/
theorem topo_step {tasks : List MTask} {L done rest acc : List TaskId} {i : TaskId}
    (ht : TopoOrder tasks L) (hL : L = done ++ i :: rest)
    (hdone : ∀ x ∈ done, x ∈ acc) :
    ∀ x ∈ done ++ [i], x ∈ schedulerRound tasks acc := by
  obtain ⟨hnd, hmem, hall, hdep⟩ := ht
  intro x hx
  rcases List.mem_append.mp hx with hx | hx
  · exact mem_schedulerRound_of_mem (hdone x hx)
  · obtain rfl : x = i := by simpa using hx
    have hiL : x ∈ L := by rw [hL]; exact List.mem_append_right _ (List.mem_cons_self _ _)
    obtain ⟨t, htt, htid⟩ := hmem x hiL
    by_cases hacc : x ∈ acc
    · exact mem_schedulerRound_of_mem hacc
    · have hnotdone : x ∉ done := by
        intro hxd
        have := List.nodup_append.mp (hL ▸ hnd)
        exact this.2.2 hxd (List.mem_cons_self _ _)
      have hposx : listPos L x = done.length := by
        rw [hL, listPos_append_of_not_mem _ hnotdone]
        simp [listPos]
      have hdeps : ∀ d ∈ t.context, d ∈ acc := by
        intro d hd
        rcases hdep t htt d hd with ⟨hdL, hlt⟩
        rw [htid, hposx] at hlt
        have hddone : d ∈ done := by
          by_contra hdn
          rw [hL, listPos_append_of_not_mem _ hdn] at hlt
          omega
        exact hdone d hddone
      have hel : t ∈ eligible tasks acc :=
        mem_eligible.mpr ⟨htt, htid ▸ hacc, hdeps⟩
      exact List.mem_append_right _ (htid ▸ List.mem_map_of_mem _ hel)

/-- Enough rounds schedule every element of a topological order. -/
theorem topo_exhaust {tasks : List MTask} {L : List TaskId} (ht : TopoOrder tasks L) :
    ∀ (rest done acc : List TaskId), L = done ++ rest → (∀ x ∈ done, x ∈ acc) →
      ∀ x ∈ L, x ∈ buildOrderAux tasks rest.length acc := by
  intro rest
  induction rest with
  | nil =>
      intro done acc hL hdone x hx
      rw [List.append_nil] at hL
      exact hdone x (hL ▸ hx)
  | cons i rest ih =>
      intro done acc hL hdone x hx
      have hstep := topo_step ht hL hdone
      have hL' : L = (done ++ [i]) ++ rest := by rw [hL, List.append_assoc]; rfl
      exact ih (done ++ [i]) (schedulerRound tasks acc) hL' hstep x hx

/-- A topological order has exactly as many entries as there are tasks. -/
theorem topo_length {tasks : List MTask} {L : List TaskId}
    (ht : TopoOrder tasks L) (hids : (taskIds tasks).Nodup) :
    L.length = tasks.length := by
  have h1 : L.length ≤ (taskIds tasks).length :=
    (ht.1.subperm (topo_mem_ids ht)).length_le
  have hsub : ∀ x ∈ taskIds tasks, x ∈ L := by
    intro x hx
    rcases List.mem_map.mp hx with ⟨t, htt, rfl⟩
    exact ht.2.2.1 t htt
  have h2 : (taskIds tasks).length ≤ L.length := (hids.subperm hsub).length_le
  have := Nat.le_antisymm h1 h2
  simpa [taskIds] using this

/-- Graph construction succeeds on every valid DAG. -/
theorem validDAG_buildOrder_ok {tasks : List MTask} (h : ValidDAG tasks) :
    ∃ ord, buildOrder tasks = .ok ord := by
  obtain ⟨hnd, L, ht⟩ := h
  have hfm : findMissingDep tasks = none := by
    cases hfm : findMissingDep tasks with
    | none => rfl
    | some pr =>
        obtain ⟨a, d⟩ := pr
        obtain ⟨t, htt, hid, hd, hnotid⟩ := findMissingDep_some hfm
        exact absurd (topo_mem_ids ht d (ht.2.2.2 t htt d hd).1) hnotid
  have hallin : ∀ t ∈ tasks, t.id ∈ buildOrderAux tasks tasks.length [] := by
    intro t htt
    have := topo_exhaust ht L [] [] (by simp) (by simp) t.id (ht.2.2.1 t htt)
    rwa [topo_length ht hnd] at this
  refine ⟨buildOrderAux tasks tasks.length [], ?_⟩
  unfold buildOrder
  rw [if_pos hnd, hfm, if_pos (decide_eq_true hallin)]
theorem findFailedDep_none_iff {st : RunState} {ds : List TaskId} :
    findFailedDep st ds = none ↔ ∀ d ∈ ds, depFailRoot st d = none := by
  induction ds with
  | nil => simp [findFailedDep]
  | cons d ds ih =>
      cases hroot : depFailRoot st d with
      | none => simp [findFailedDep, hroot, ih]
      | some r => simp [findFailedDep, hroot]

theorem findFailedDep_some_ex {st : RunState} {ds : List TaskId} {r : TaskId}
    (h : findFailedDep st ds = some r) : ∃ d ∈ ds, depFailRoot st d = some r := by
  induction ds with
  | nil => simp [findFailedDep] at h
  | cons d ds ih =>
      cases hroot : depFailRoot st d with
      | none =>
          rw [findFailedDep, hroot] at h
          rcases ih h with ⟨d', hd', hr'⟩
          exact ⟨d', List.mem_cons_of_mem _ hd', hr'⟩
      | some r' =>
          rw [findFailedDep, hroot] at h
          obtain rfl : r' = r := by simpa using h
          exact ⟨d, List.mem_cons_self _ _, hroot⟩

theorem depFailRoot_none {st : RunState} {d : TaskId}
    (hs : (alookup st.outcomes d).isSome) (h : depFailRoot st d = none) :
    ∃ s, alookup st.outcomes d = some (.completed s) := by
  unfold depFailRoot at h
  cases hl : alookup st.outcomes d with
  | none => rw [hl] at hs; cases hs
  | some o =>
      cases o with
      | completed s => exact ⟨s, rfl⟩
      | failedOwn f => rw [hl] at h; cases h
      | failedDep r => rw [hl] at h; cases h

theorem depFailRoot_some {st : RunState} {d r : TaskId}
    (h : depFailRoot st d = some r) :
    (r = d ∧ ∃ f, alookup st.outcomes d = some (.failedOwn f)) ∨
      alookup st.outcomes d = some (.failedDep r) := by
  unfold depFailRoot at h
  cases hl : alookup st.outcomes d with
  | none => rw [hl] at h; cases h
  | some o =>
      cases o with
      | completed s => rw [hl] at h; cases h
      | failedOwn f =>
          rw [hl] at h
          obtain rfl : d = r := by simpa using h
          exact Or.inl ⟨rfl, f, rfl⟩
      | failedDep r' =>
          rw [hl] at h
          obtain rfl : r' = r := by simpa using h
          exact Or.inr rfl

theorem map_eq_of_mem {α β : Type} {f g : α → β} :
    ∀ {l : List α}, (∀ a ∈ l, f a = g a) → l.map f = l.map g := by
  intro l
  induction l with
  | nil => intro _; rfl
  | cons a l ih =>
      intro h
      simp only [List.map_cons, h a (List.mem_cons_self _ _),
        ih fun b hb => h b (List.mem_cons_of_mem _ hb)]

theorem resolveTemplate_congr {tasks : List MTask} (st' st : RunState) {t : MTask}
    (h : ∀ d ∈ t.context, alookup st'.outcomes d = alookup st.outcomes d) :
    resolveTemplate tasks st' t = resolveTemplate tasks st t := by
  unfold resolveTemplate
  refine congrArg _ (congrArg concatAll (map_eq_of_mem ?_))
  intro d hd
  unfold depSection ctxOf
  rw [h d hd]

/-- Processing one task whose dependencies are all processed preserves the
executor invariant. -/
theorem execStep_inv {infer : Agent → String → InferenceResult} {tasks : List MTask}
    {procd : List TaskId} {st : RunState} {i : TaskId} {u : MTask}
    (hinj : (taskIds tasks).Nodup) (hI : ExecInv infer tasks procd st)
    (hi : i ∉ procd) (hfind : findTask tasks i = some u)
    (hdeps : ∀ d ∈ u.context, d ∈ procd) :
    ExecInv infer tasks (procd ++ [i]) (execStep infer tasks st i) := by
  have humem := (findTask_eq_some hfind).1
  have huid := (findTask_eq_some hfind).2
  have hkey : ∀ d ∈ u.context, (alookup st.outcomes d).isSome :=
    fun d hd => (hI.keys d).mpr (hdeps d hd)
  have hne_i : ∀ j, (alookup st.outcomes j).isSome → i ≠ j :=
    fun j hj he => hi (he ▸ (hI.keys j).mp hj)
  have hproc_ne : ∀ j, j ∈ procd → i ≠ j := fun j hj he => hi (he ▸ hj)
  cases hffd : findFailedDep st u.context with
  | some r =>
      simp only [execStep, hfind, hffd]
      obtain ⟨d, hd, hroot⟩ := findFailedDep_some_ex hffd
      have hd_in : d ∈ procd := hdeps d hd
      have hrootfacts : (∃ f, alookup st.outcomes r = some (.failedOwn f)) ∧
          dependsOn tasks i r := by
        rcases depFailRoot_some hroot with ⟨rfl, f, hf⟩ | hfd
        · exact ⟨⟨f, hf⟩, Relation.TransGen.single ⟨u, humem, huid, hd⟩⟩
        · have hdr := hI.dep_root d r hfd
          exact ⟨hdr.1, Relation.TransGen.head ⟨u, humem, huid, hd⟩ hdr.2.1⟩
      have hr_ne : i ≠ r := by
        rcases hrootfacts.1 with ⟨f, hf⟩
        exact hne_i r (by simp [hf])
      refine ⟨?_, ?_, ?_, ?_, ?_, ?_, ?_, ?_⟩
      · intro j
        by_cases hij : i = j
        · subst hij
          simp [alookup_cons_self, List.mem_append]
        · rw [show alookup ((i, Outcome.failedDep r) :: st.outcomes) j =
              alookup st.outcomes j from alookup_cons_ne hij, hI.keys j]
          simp only [List.mem_append, List.mem_singleton]
          exact ⟨fun h => Or.inl h, fun h => h.resolve_right fun he => (hij he.symm).elim⟩
      · intro j p hjp
        exact List.mem_append_left _ (hI.inv_procd j p hjp)
      · exact hI.inv_sub.trans (List.sublist_append_left _ _)
      · intro j s hj
        have hij : i ≠ j := by
          intro he; subst he
          rw [alookup_cons_self] at hj
          cases hj
        rw [alookup_cons_ne hij] at hj
        exact hI.prov_ok j s hj
      · intro j f hj
        have hij : i ≠ j := by
          intro he; subst he
          rw [alookup_cons_self] at hj
          cases hj
        rw [alookup_cons_ne hij] at hj
        exact hI.prov_err j f hj
      · intro j r' hj
        by_cases hij : i = j
        · subst hij
          rw [alookup_cons_self] at hj
          obtain rfl : r = r' := by simpa using hj
          refine ⟨?_, hrootfacts.2, ?_⟩
          · rcases hrootfacts.1 with ⟨f, hf⟩
            exact ⟨f, by rw [alookup_cons_ne hr_ne]; exact hf⟩
          · intro p hp
            exact hi (hI.inv_procd i p hp)
        · rw [alookup_cons_ne hij] at hj
          obtain ⟨⟨f, hf⟩, hTG, hninv⟩ := hI.dep_root j r' hj
          have hir' : i ≠ r' := hne_i r' (by simp [hf])
          exact ⟨⟨f, by rw [alookup_cons_ne hir']; exact hf⟩, hTG, hninv⟩
      · intro t' ht' hmem
        simp only [List.mem_append, List.mem_singleton] at hmem
        rcases hmem with hmem | hmem
        · rcases hI.step_shape t' ht' hmem with ⟨r', hr'⟩ | hall
          · exact Or.inl ⟨r', by rw [alookup_cons_ne (hproc_ne _ hmem)]; exact hr'⟩
          · refine Or.inr fun d hd => ?_
            obtain ⟨s, hs⟩ := hall d hd
            exact ⟨s, by rw [alookup_cons_ne (hne_i d (by simp [hs]))]; exact hs⟩
        · exact Or.inl ⟨r, by rw [hmem, alookup_cons_self]⟩
      · intro j p hjp
        obtain ⟨t', hft, hq, hdeps'⟩ := hI.inv_prompt j p hjp
        have hstable : ∀ d ∈ t'.context,
            alookup ((i, Outcome.failedDep r) :: st.outcomes) d = alookup st.outcomes d := by
          intro d hd
          obtain ⟨s, hs⟩ := hdeps' d hd
          exact alookup_cons_ne (hne_i d (by simp [hs]))
        refine ⟨t', hft, ?_, ?_⟩
        · rw [resolveTemplate_congr ⟨(i, Outcome.failedDep r) :: st.outcomes, st.invocations⟩ st hstable]
          exact hq
        · intro d hd
          obtain ⟨s, hs⟩ := hdeps' d hd
          exact ⟨s, by rw [hstable d hd]; exact hs⟩
  | none =>
      have hcomp : ∀ d ∈ u.context, ∃ s, alookup st.outcomes d = some (.completed s) :=
        fun d hd => depFailRoot_none (hkey d hd) (findFailedDep_none_iff.mp hffd d hd)
      have hstable1 : ∀ (X : Outcome) (t' : MTask),
          (∀ d ∈ t'.context, ∃ s, alookup st.outcomes d = some (.completed s)) →
          ∀ d ∈ t'.context, alookup ((i, X) :: st.outcomes) d = alookup st.outcomes d := by
        intro X t' hds d hd
        obtain ⟨s', hs⟩ := hds d hd
        exact alookup_cons_ne (hne_i d (by simp [hs]))
      cases hw : executeWorker u.agent (infer u.agent (resolveTemplate tasks st u)) with
      | ok s =>
          simp only [execStep, hfind, hffd, hw]
          refine ⟨?_, ?_, ?_, ?_, ?_, ?_, ?_, ?_⟩
          · intro j
            by_cases hij : i = j
            · subst hij
              simp [alookup_cons_self, List.mem_append]
            · rw [show alookup ((i, Outcome.completed s) :: st.outcomes) j =
                  alookup st.outcomes j from alookup_cons_ne hij, hI.keys j]
              simp only [List.mem_append, List.mem_singleton]
              exact ⟨fun h => Or.inl h, fun h => h.resolve_right fun he => (hij he.symm).elim⟩
          · intro j p hjp
            rcases List.mem_append.mp hjp with h | h
            · exact List.mem_append_left _ (hI.inv_procd j p h)
            · obtain ⟨rfl, rfl⟩ : j = i ∧ p = resolveTemplate tasks st u := by
                simpa [Prod.ext_iff] using h
              exact List.mem_append_right _ (by simp)
          · simp only [List.map_append]
            exact hI.inv_sub.append (List.Sublist.refl _)
          · intro j s' hj
            by_cases hij : i = j
            · subst hij
              rw [alookup_cons_self] at hj
              obtain rfl : s = s' := by simpa using hj
              exact ⟨u, resolveTemplate tasks st u, hfind,
                List.mem_append_right _ (by simp), hw⟩
            · rw [alookup_cons_ne hij] at hj
              obtain ⟨t', q, hft, hqm, hwq⟩ := hI.prov_ok j s' hj
              exact ⟨t', q, hft, List.mem_append_left _ hqm, hwq⟩
          · intro j f hj
            by_cases hij : i = j
            · subst hij
              rw [alookup_cons_self] at hj
              exact absurd hj (by simp)
            · rw [alookup_cons_ne hij] at hj
              obtain ⟨t', q, hft, hqm, hwq⟩ := hI.prov_err j f hj
              exact ⟨t', q, hft, List.mem_append_left _ hqm, hwq⟩
          · intro j r' hj
            by_cases hij : i = j
            · subst hij
              rw [alookup_cons_self] at hj
              exact absurd hj (by simp)
            · rw [alookup_cons_ne hij] at hj
              obtain ⟨⟨f', hf'⟩, hTG, hninv⟩ := hI.dep_root j r' hj
              have hir' : i ≠ r' := hne_i r' (by simp [hf'])
              refine ⟨⟨f', by rw [alookup_cons_ne hir']; exact hf'⟩, hTG, ?_⟩
              intro p hp
              rcases List.mem_append.mp hp with h | h
              · exact hninv p h
              · obtain ⟨he, -⟩ : j = i ∧ p = resolveTemplate tasks st u := by
                  simpa [Prod.ext_iff] using h
                exact hij he.symm
          · intro t' ht' hmem
            simp only [List.mem_append, List.mem_singleton] at hmem
            rcases hmem with hmem | hmem
            · rcases hI.step_shape t' ht' hmem with ⟨r', hr'⟩ | hall
              · exact Or.inl ⟨r', by rw [alookup_cons_ne (hproc_ne _ hmem)]; exact hr'⟩
              · refine Or.inr fun d hd => ?_
                obtain ⟨s', hs⟩ := hall d hd
                exact ⟨s', by rw [alookup_cons_ne (hne_i d (by simp [hs]))]; exact hs⟩
            · have ht'u : t' = u := List.inj_on_of_nodup_map hinj ht' humem (by rw [hmem, huid])
              refine Or.inr fun d hd => ?_
              obtain ⟨s', hs⟩ := hcomp d (ht'u ▸ hd)
              exact ⟨s', by rw [alookup_cons_ne (hne_i d (by simp [hs]))]; exact hs⟩
          · intro j p hjp
            rcases List.mem_append.mp hjp with h | h
            · obtain ⟨t', hft, hq, hdeps'⟩ := hI.inv_prompt j p h
              have hst := hstable1 (Outcome.completed s) t' hdeps'
              refine ⟨t', hft, ?_, ?_⟩
              · rw [resolveTemplate_congr _ _ hst]
                exact hq
              · intro d hd
                obtain ⟨s', hs⟩ := hdeps' d hd
                exact ⟨s', by rw [hst d hd]; exact hs⟩
            · obtain ⟨rfl, rfl⟩ : j = i ∧ p = resolveTemplate tasks st u := by
                simpa [Prod.ext_iff] using h
              have hst := hstable1 (Outcome.completed s) u hcomp
              refine ⟨u, hfind, ?_, ?_⟩
              · exact (resolveTemplate_congr _ _ hst).symm
              · intro d hd
                obtain ⟨s', hs⟩ := hcomp d hd
                exact ⟨s', by rw [hst d hd]; exact hs⟩
      | error f =>
          simp only [execStep, hfind, hffd, hw]
          refine ⟨?_, ?_, ?_, ?_, ?_, ?_, ?_, ?_⟩
          · intro j
            by_cases hij : i = j
            · subst hij
              simp [alookup_cons_self, List.mem_append]
            · rw [show alookup ((i, Outcome.failedOwn f) :: st.outcomes) j =
                  alookup st.outcomes j from alookup_cons_ne hij, hI.keys j]
              simp only [List.mem_append, List.mem_singleton]
              exact ⟨fun h => Or.inl h, fun h => h.resolve_right fun he => (hij he.symm).elim⟩
          · intro j p hjp
            rcases List.mem_append.mp hjp with h | h
            · exact List.mem_append_left _ (hI.inv_procd j p h)
            · obtain ⟨rfl, rfl⟩ : j = i ∧ p = resolveTemplate tasks st u := by
                simpa [Prod.ext_iff] using h
              exact List.mem_append_right _ (by simp)
          · simp only [List.map_append]
            exact hI.inv_sub.append (List.Sublist.refl _)
          · intro j s' hj
            by_cases hij : i = j
            · subst hij
              rw [alookup_cons_self] at hj
              exact absurd hj (by simp)
            · rw [alookup_cons_ne hij] at hj
              obtain ⟨t', q, hft, hqm, hwq⟩ := hI.prov_ok j s' hj
              exact ⟨t', q, hft, List.mem_append_left _ hqm, hwq⟩
          · intro j f' hj
            by_cases hij : i = j
            · subst hij
              rw [alookup_cons_self] at hj
              obtain rfl : f = f' := by simpa using hj
              exact ⟨u, resolveTemplate tasks st u, hfind,
                List.mem_append_right _ (by simp), hw⟩
            · rw [alookup_cons_ne hij] at hj
              obtain ⟨t', q, hft, hqm, hwq⟩ := hI.prov_err j f' hj
              exact ⟨t', q, hft, List.mem_append_left _ hqm, hwq⟩
          · intro j r' hj
            by_cases hij : i = j
            · subst hij
              rw [alookup_cons_self] at hj
              exact absurd hj (by simp)
            · rw [alookup_cons_ne hij] at hj
              obtain ⟨⟨f', hf'⟩, hTG, hninv⟩ := hI.dep_root j r' hj
              have hir' : i ≠ r' := hne_i r' (by simp [hf'])
              refine ⟨⟨f', by rw [alookup_cons_ne hir']; exact hf'⟩, hTG, ?_⟩
              intro p hp
              rcases List.mem_append.mp hp with h | h
              · exact hninv p h
              · obtain ⟨he, -⟩ : j = i ∧ p = resolveTemplate tasks st u := by
                  simpa [Prod.ext_iff] using h
                exact hij he.symm
          · intro t' ht' hmem
            simp only [List.mem_append, List.mem_singleton] at hmem
            rcases hmem with hmem | hmem
            · rcases hI.step_shape t' ht' hmem with ⟨r', hr'⟩ | hall
              · exact Or.inl ⟨r', by rw [alookup_cons_ne (hproc_ne _ hmem)]; exact hr'⟩
              · refine Or.inr fun d hd => ?_
                obtain ⟨s', hs⟩ := hall d hd
                exact ⟨s', by rw [alookup_cons_ne (hne_i d (by simp [hs]))]; exact hs⟩
            · have ht'u : t' = u := List.inj_on_of_nodup_map hinj ht' humem (by rw [hmem, huid])
              refine Or.inr fun d hd => ?_
              obtain ⟨s', hs⟩ := hcomp d (ht'u ▸ hd)
              exact ⟨s', by rw [alookup_cons_ne (hne_i d (by simp [hs]))]; exact hs⟩
          · intro j p hjp
            rcases List.mem_append.mp hjp with h | h
            · obtain ⟨t', hft, hq, hdeps'⟩ := hI.inv_prompt j p h
              have hst := hstable1 (Outcome.failedOwn f) t' hdeps'
              refine ⟨t', hft, ?_, ?_⟩
              · rw [resolveTemplate_congr _ _ hst]
                exact hq
              · intro d hd
                obtain ⟨s', hs⟩ := hdeps' d hd
                exact ⟨s', by rw [hst d hd]; exact hs⟩
            · obtain ⟨rfl, rfl⟩ : j = i ∧ p = resolveTemplate tasks st u := by
                simpa [Prod.ext_iff] using h
              have hst := hstable1 (Outcome.failedOwn f) u hcomp
              refine ⟨u, hfind, ?_, ?_⟩
              · exact (resolveTemplate_congr _ _ hst).symm
              · intro d hd
                obtain ⟨s', hs⟩ := hcomp d hd
                exact ⟨s', by rw [hst d hd]; exact hs⟩
/-- The executor preserves its invariant along any dependency-respecting
dispatch order. -/
theorem execAll_inv {infer : Agent → String → InferenceResult} {tasks : List MTask} :
    ∀ (rem procd : List TaskId) (st : RunState),
      (procd ++ rem).Nodup → DepOrderedL tasks (procd ++ rem) →
      (∀ i ∈ rem, ∃ t ∈ tasks, t.id = i) → (taskIds tasks).Nodup →
      ExecInv infer tasks procd st →
      ExecInv infer tasks (procd ++ rem) (execAll infer tasks rem st) := by
  intro rem
  induction rem with
  | nil =>
      intro procd st _ _ _ _ hI
      simpa [execAll] using hI
  | cons i rem ih =>
      intro procd st hnd hord hids hinj hI
      obtain ⟨t, htmem, htid⟩ := hids i (List.mem_cons_self _ _)
      obtain ⟨u, hfind⟩ := findTask_isSome ⟨t, htmem, htid⟩
      have humem := (findTask_eq_some hfind).1
      have huid := (findTask_eq_some hfind).2
      have hi_not : i ∉ procd := fun hip =>
        (List.nodup_append.mp hnd).2.2 hip (List.mem_cons_self _ _)
      have hdeps : ∀ d ∈ u.context, d ∈ procd := by
        intro d hd
        have hin : u.id ∈ procd ++ i :: rem := by
          rw [huid]; exact List.mem_append_right _ (List.mem_cons_self _ _)
        have hlt := (hord u humem hin d hd).2
        by_contra hdn
        rw [listPos_append_of_not_mem (i :: rem) hdn, huid,
          listPos_append_of_not_mem _ hi_not] at hlt
        simp [listPos] at hlt
      have hstep := execStep_inv hinj hI hi_not hfind hdeps
      have happ : procd ++ i :: rem = (procd ++ [i]) ++ rem := by
        rw [List.append_assoc]; rfl
      rw [happ] at hnd hord
      have hres := ih (procd ++ [i]) (execStep infer tasks st i) hnd hord
        (fun j hj => hids j (List.mem_cons_of_mem _ hj)) hinj hstep
      rw [happ]
      simpa [execAll] using hres

/-- The executor invariant holds of the full run when graph construction
succeeded. -/
theorem runCrew_execInv {tasks : List MTask} (infer : Agent → String → InferenceResult)
    {ord : List TaskId} (hok : buildOrder tasks = .ok ord) :
    ExecInv infer tasks ord (execAll infer tasks ord ⟨[], []⟩) := by
  obtain ⟨hinj, hnd, hsub, hord, hall⟩ := buildOrder_ok_spec hok
  have h0 : ExecInv infer tasks [] ⟨[], []⟩ := by
    refine ⟨?_, ?_, ?_, ?_, ?_, ?_, ?_, ?_⟩
    · intro j; simp [alookup]
    · intro j p h; simp at h
    · simp
    · intro j s h; simp [alookup] at h
    · intro j f h; simp [alookup] at h
    · intro j r h; simp [alookup] at h
    · intro t _ h; simp at h
    · intro j p h; simp at h
  have hids : ∀ i ∈ ord, ∃ t ∈ tasks, t.id = i := by
    intro i hi
    rcases List.mem_map.mp (hsub i hi) with ⟨t, ht, rfl⟩
    exact ⟨t, ht, rfl⟩
  have hres := execAll_inv ord [] ⟨[], []⟩ (by simpa using hnd) (by simpa using hord)
    hids hinj h0
  simpa using hres

/-- Under a collaborator that always answers nonempty text, every Worker
execution succeeds. -/
theorem allok_executeWorker {infer : Agent → String → InferenceResult}
    (hal : AllOk infer) (a : Agent) (p : String) :
    ∃ s, executeWorker a (infer a p) = .ok s ∧ s ≠ "" := by
  obtain ⟨s, hs, hne⟩ := hal a p
  exact ⟨s, by rw [hs]; simp [executeWorker, hne], hne⟩

/-- Under a collaborator that always answers nonempty text and a successfully
built order, every scheduled task Completes and the invocation trace is
exactly the dispatch order. -/
theorem allok_run {tasks : List MTask} {infer : Agent → String → InferenceResult}
    {ord : List TaskId} (hok : buildOrder tasks = .ok ord) (hal : AllOk infer) :
    (∀ j ∈ ord, ∃ s, alookup (execAll infer tasks ord ⟨[], []⟩).outcomes j =
      some (.completed s)) ∧
    (execAll infer tasks ord ⟨[], []⟩).invocations.map Prod.fst = ord := by
  have hI : ExecInv infer tasks ord (execAll infer tasks ord ⟨[], []⟩) :=
    runCrew_execInv infer hok
  obtain ⟨hinj, hnd, hsub, hord, hall⟩ := buildOrder_ok_spec hok
  have hnoerr : ∀ j f,
      alookup (execAll infer tasks ord ⟨[], []⟩).outcomes j ≠ some (.failedOwn f) := by
    intro j f hj
    obtain ⟨t, p, _, _, hw⟩ := hI.prov_err j f hj
    obtain ⟨s, hws, _⟩ := allok_executeWorker hal t.agent p
    rw [hws] at hw
    cases hw
  have hcompl : ∀ j ∈ ord, ∃ s,
      alookup (execAll infer tasks ord ⟨[], []⟩).outcomes j = some (.completed s) := by
    intro j hj
    have hsome := (hI.keys j).mpr hj
    cases hl : alookup (execAll infer tasks ord ⟨[], []⟩).outcomes j with
    | none => rw [hl] at hsome; cases hsome
    | some o =>
        cases o with
        | completed s => exact ⟨s, rfl⟩
        | failedOwn f => exact absurd hl (hnoerr j f)
        | failedDep r =>
            obtain ⟨⟨f, hf⟩, _, _⟩ := hI.dep_root j r hl
            exact absurd hf (hnoerr r f)
  refine ⟨hcompl, ?_⟩
  refine sublist_eq_of_superset hI.inv_sub hnd ?_
  intro x hx
  obtain ⟨s, hs⟩ := hcompl x hx
  obtain ⟨t, p, _, hpm, _⟩ := hI.prov_ok x s hs
  exact List.mem_map_of_mem _ hpm

theorem runResult_ok {tasks : List MTask} {st : RunState} {s : String}
    (h : runResult tasks st = .ok s) :
    alookup st.outcomes (terminalId tasks) = some (.completed s) := by
  unfold runResult at h
  split at h
  · next heq =>
      obtain rfl : _ = s := by simpa using h
      exact heq
  · exact absurd h (by simp)
  · split at h <;> exact absurd h (by simp)
  · exact absurd h (by simp)

/-- A run-level root failure always points at a task recorded as own-failed. -/
theorem runResult_rootFailure {tasks : List MTask} {st : RunState} {r : TaskId}
    {f : WorkerFailure} (h : runResult tasks st = .error (.rootFailure r f)) :
    alookup st.outcomes r = some (.failedOwn f) := by
  unfold runResult at h
  split at h
  · exact absurd h (by simp)
  · next heq =>
      obtain ⟨rfl, rfl⟩ : terminalId tasks = r ∧ _ = f := by
        simpa [RunError.rootFailure.injEq] using h
      exact heq
  · split at h
    · next heq2 =>
        obtain ⟨rfl, rfl⟩ : _ = r ∧ _ = f := by
          simpa [RunError.rootFailure.injEq] using h
        exact heq2
    · exact absurd h (by simp)
  · exact absurd h (by simp)
set_option maxHeartbeats 2000000 in
/-- Graph construction over the embedded five-task set always yields the
submission order, whichever code is under review (only identities and
dependency sets are inspected). -/
theorem buildOrder_create (code : String) :
    buildOrder (create_review_tasks code) = .ok [0, 1, 2, 3, 4] := rfl

/-- The designated terminal task of the embedded set is the decision task. -/
theorem terminalId_create (code : String) :
    terminalId (create_review_tasks code) = 4 := rfl

theorem depSection_of_completed (tasks : List MTask) {st : RunState} {d : TaskId}
    {s : String} (h : alookup st.outcomes d = some (.completed s)) :
    depSection tasks st d = "\n\n--- Result from " ++ workerRoleOf tasks d ++ " ---\n" ++ s := by
  unfold depSection ctxOf
  rw [h]

/-- Processing a task never removes an invocation: it leaves the invocation
list unchanged or appends the one it issues. -/
theorem execStep_invocations_shape (infer : Agent → String → InferenceResult)
    (tasks : List MTask) (st : RunState) (i : TaskId) :
    (execStep infer tasks st i).invocations = st.invocations ∨
    ∃ p, (execStep infer tasks st i).invocations = st.invocations ++ [(i, p)] := by
  unfold execStep
  split
  · exact Or.inl rfl
  · next u heq =>
      split
      · exact Or.inl rfl
      · dsimp only
        cases hw : executeWorker u.agent (infer u.agent (resolveTemplate tasks st u)) with
        | ok s => exact Or.inr ⟨_, rfl⟩
        | error f => exact Or.inr ⟨_, rfl⟩

/-- A task with no declared dependencies is always invoked when processed. -/
theorem execStep_invocations_no_deps (infer : Agent → String → InferenceResult)
    {tasks : List MTask} (st : RunState) {i : TaskId} {u : MTask}
    (hfind : findTask tasks i = some u) (hctx : u.context = []) :
    (execStep infer tasks st i).invocations =
      st.invocations ++ [(i, resolveTemplate tasks st u)] := by
  simp only [execStep, hfind, hctx, findFailedDep]
  cases executeWorker u.agent (infer u.agent (resolveTemplate tasks st u)) <;> rfl

/-- The trace of any run of the embedded five review tasks: the four
independent review tasks are invoked, in submission order, in every run; the
decision task is invoked last or not at all. -/
theorem run_trace_shape (infer : Agent → String → InferenceResult) (code : String) :
    ∃ tail, (run_code_review infer code).2.invocations.map Prod.fst = [0, 1, 2, 3] ++ tail ∧
      (tail = [] ∨ tail = [4]) := by
  simp only [run_code_review, runCrew, buildOrder_create, execAll]
  have e0 := execStep_invocations_no_deps infer (⟨[], []⟩ : RunState)
    (rfl : findTask (create_review_tasks code) 0 = some (quality_task code)) rfl
  have e1 := execStep_invocations_no_deps infer
    (execStep infer (create_review_tasks code) ⟨[], []⟩ 0)
    (rfl : findTask (create_review_tasks code) 1 = some (security_task code)) rfl
  have e2 := execStep_invocations_no_deps infer
    (execStep infer (create_review_tasks code)
      (execStep infer (create_review_tasks code) ⟨[], []⟩ 0) 1)
    (rfl : findTask (create_review_tasks code) 2 = some (frontend_task code)) rfl
  have e3 := execStep_invocations_no_deps infer
    (execStep infer (create_review_tasks code)
      (execStep infer (create_review_tasks code)
        (execStep infer (create_review_tasks code) ⟨[], []⟩ 0) 1) 2)
    (rfl : findTask (create_review_tasks code) 3 = some (infrastructure_task code)) rfl
  rcases execStep_invocations_shape infer (create_review_tasks code)
      (execStep infer (create_review_tasks code)
        (execStep infer (create_review_tasks code)
          (execStep infer (create_review_tasks code)
            (execStep infer (create_review_tasks code) ⟨[], []⟩ 0) 1) 2) 3) 4 with
    h4 | ⟨p, h4⟩
  · refine ⟨[], ?_, Or.inl rfl⟩
    rw [h4, e3, e2, e1, e0]
    simp
  · refine ⟨[4], ?_, Or.inr rfl⟩
    rw [h4, e3, e2, e1, e0]
    simp
/-- Any Worker failure reported by a Worker execution carries that Worker's
role as its identity. -/
theorem executeWorker_error_worker {a : Agent} {ans : InferenceResult} {f : WorkerFailure}
    (h : executeWorker a ans = .error f) : f.worker = a.role := by
  cases ans with
  | unreachable => rw [← Except.error.inj h]
  | errorStatus c => rw [← Except.error.inj h]
  | response t =>
      by_cases ht : t = ""
      · simp only [executeWorker, if_pos ht] at h
        rw [← Except.error.inj h]
      · simp only [executeWorker, if_neg ht] at h
        cases h

/-- The embedded five-task set is a valid DAG witnessed by its submission
order. -/
theorem validDAG_create (code : String) : ValidDAG (create_review_tasks code) := by
  refine ⟨?_, [0, 1, 2, 3, 4], ?_, ?_, ?_, ?_⟩
  · rw [show taskIds (create_review_tasks code) = [0, 1, 2, 3, 4] from rfl]
    decide
  · decide
  · intro i hi
    simp only [List.mem_cons, List.not_mem_nil, or_false] at hi
    rcases hi with rfl | rfl | rfl | rfl | rfl
    · exact ⟨quality_task code, by simp [create_review_tasks], rfl⟩
    · exact ⟨security_task code, by simp [create_review_tasks], rfl⟩
    · exact ⟨frontend_task code, by simp [create_review_tasks], rfl⟩
    · exact ⟨infrastructure_task code, by simp [create_review_tasks], rfl⟩
    · exact ⟨decision_task code, by simp [create_review_tasks], rfl⟩
  · intro t ht
    simp only [create_review_tasks, List.mem_cons, List.not_mem_nil, or_false] at ht
    rcases ht with rfl | rfl | rfl | rfl | rfl <;>
      simp [quality_task, security_task, frontend_task, infrastructure_task, decision_task]
  · intro t ht d hd
    simp only [create_review_tasks, List.mem_cons, List.not_mem_nil, or_false] at ht
    rcases ht with rfl | rfl | rfl | rfl | rfl
    · simp [quality_task] at hd
    · simp [security_task] at hd
    · simp [frontend_task] at hd
    · simp [infrastructure_task] at hd
    · rw [show (decision_task code).context = [0, 1, 2, 3] from rfl] at hd
      rw [show (decision_task code).id = 4 from rfl]
      simp only [List.mem_cons, List.not_mem_nil, or_false] at hd
      rcases hd with rfl | rfl | rfl | rfl <;> exact ⟨by decide, by decide⟩

/-- The all-"ok" stub collaborator never fails. -/
theorem allok_stubInfer : AllOk stubInfer :=
  fun _ _ => ⟨"ok", rfl, by decide⟩

theorem findTask_create_four (code : String) :
    findTask (create_review_tasks code) 4 = some (decision_task code) := rfl

theorem count_eq_one_of_nodup {l : List TaskId} {a : TaskId}
    (hnd : l.Nodup) (ha : a ∈ l) : l.count a = 1 := by
  induction l with
  | nil => cases ha
  | cons b l ih =>
      rcases List.nodup_cons.mp hnd with ⟨hb, hl⟩
      rcases List.mem_cons.mp ha with rfl | ha'
      · rw [List.count_cons_self, List.count_eq_zero_of_not_mem hb]
      · have hba : b ≠ a := fun he => hb (he ▸ ha')
        rw [List.count_cons_of_ne (fun he => hba he.symm) , ih hl ha']
/-- C1: for every input artifact and collaborator behaviour, whenever
run_code_review returns a success value it is exactly the Result recorded for
the designated terminal task — the decision task, id 4, the last of the five —
produced by the Technical Lead Reviewer's own Worker invocation; any other
outcome is a structured RunError (by the result type). The run never surfaces
the result of a non-terminal task. -/
theorem run_code_review_returns_terminal_result
    (infer : Agent → String → InferenceResult) (code s : String)
    (hs : (run_code_review infer code).1 = .ok s) :
    (create_review_tasks code).getLast? = some (decision_task code) ∧
    (decision_task code).id = 4 ∧
    alookup (run_code_review infer code).2.outcomes 4 = some (.completed s) ∧
    ∃ p, (4, p) ∈ (run_code_review infer code).2.invocations ∧
      executeWorker tech_lead_reviewer (infer tech_lead_reviewer p) = .ok s := by
  simp only [run_code_review, runCrew, buildOrder_create] at hs ⊢
  have hterm := runResult_ok hs
  rw [terminalId_create] at hterm
  refine ⟨rfl, rfl, hterm, ?_⟩
  have hI := runCrew_execInv infer (buildOrder_create code)
  obtain ⟨t, p, hft, hpm, hw⟩ := hI.prov_ok 4 s hterm
  rw [findTask_create_four] at hft
  obtain rfl := Option.some.inj hft
  exact ⟨p, hpm, hw⟩

set_option maxHeartbeats 1000000 in
/-- Witness for C1 at the stub collaborator and artifact "x". -/
theorem run_code_review_terminal_witness :
    (create_review_tasks "x").getLast? = some (decision_task "x") ∧
    (decision_task "x").id = 4 ∧
    alookup (run_code_review stubInfer "x").2.outcomes 4 = some (.completed "ok") ∧
    ∃ p, (4, p) ∈ (run_code_review stubInfer "x").2.invocations ∧
      executeWorker tech_lead_reviewer (stubInfer tech_lead_reviewer p) = .ok "ok" :=
  run_code_review_returns_terminal_result stubInfer "x" "ok" rfl

/-- C2: for every task set forming a valid DAG and a collaborator that never
fails, the orchestration invokes every task exactly once, Completes every task,
and dispatches every task strictly after all of its declared dependencies —
which are then Completed, with their Results in the Execution Context, at the
moment the dependent is dispatched (the engine dispatches one task at a time in
trace order). In the embedded set this makes the decision task start only after
the four review tasks are Completed. -/
theorem orchestrator_completes_valid_dag (tasks : List MTask)
    (infer : Agent → String → InferenceResult)
    (hdag : ValidDAG tasks) (hal : AllOk infer) :
    (∀ t ∈ tasks, ((runCrew tasks infer).2.invocations.map Prod.fst).count t.id = 1) ∧
    (∀ t ∈ tasks, ∃ s,
      alookup (runCrew tasks infer).2.outcomes t.id = some (.completed s)) ∧
    (∀ t ∈ tasks, ∀ d ∈ t.context,
      listPos ((runCrew tasks infer).2.invocations.map Prod.fst) d <
        listPos ((runCrew tasks infer).2.invocations.map Prod.fst) t.id) ∧
    (∀ t ∈ tasks, ∀ d ∈ t.context, ∃ s,
      alookup (runCrew tasks infer).2.outcomes d = some (.completed s)) := by
  obtain ⟨ord, hbo⟩ := validDAG_buildOrder_ok hdag
  obtain ⟨hinj, hnd, hsub, hord, hall⟩ := buildOrder_ok_spec hbo
  obtain ⟨hcompl, htrace⟩ := allok_run hbo hal
  simp only [runCrew, hbo]
  refine ⟨?_, ?_, ?_, ?_⟩
  · intro t ht
    rw [htrace]
    exact count_eq_one_of_nodup hnd (hall t ht)
  · intro t ht
    exact hcompl t.id (hall t ht)
  · intro t ht d hd
    rw [htrace]
    exact (hord t ht (hall t ht) d hd).2
  · intro t ht d hd
    exact hcompl d (hord t ht (hall t ht) d hd).1

/-- Witness for C2 at the embedded five-task set and the stub collaborator. -/
theorem orchestrator_completes_witness :
    (∀ t ∈ create_review_tasks "x",
      ((runCrew (create_review_tasks "x") stubInfer).2.invocations.map Prod.fst).count t.id = 1) ∧
    (∀ t ∈ create_review_tasks "x", ∃ s,
      alookup (runCrew (create_review_tasks "x") stubInfer).2.outcomes t.id =
        some (.completed s)) ∧
    (∀ t ∈ create_review_tasks "x", ∀ d ∈ t.context,
      listPos ((runCrew (create_review_tasks "x") stubInfer).2.invocations.map Prod.fst) d <
        listPos ((runCrew (create_review_tasks "x") stubInfer).2.invocations.map Prod.fst) t.id) ∧
    (∀ t ∈ create_review_tasks "x", ∀ d ∈ t.context, ∃ s,
      alookup (runCrew (create_review_tasks "x") stubInfer).2.outcomes d =
        some (.completed s)) :=
  orchestrator_completes_valid_dag (create_review_tasks "x") stubInfer
    (validDAG_create "x") allok_stubInfer

/-- C3: for every task set containing a dependency cycle or a dependency
identity referring to no task of the set, graph construction fails with a
GraphError and nothing is dispatched: the run reports the GraphError and the
Worker invocation count is zero. -/
theorem malformed_graph_rejected_before_dispatch (tasks : List MTask)
    (infer : Agent → String → InferenceResult)
    (h : HasCycle tasks ∨ HasDanglingDep tasks) :
    (∃ e, (runCrew tasks infer).1 = .error (.graph e)) ∧
    (runCrew tasks infer).2.invocations = [] := by
  obtain ⟨e, he⟩ := buildOrder_error_of_malformed h
  constructor
  · exact ⟨e, by simp [runCrew, he]⟩
  · simp [runCrew, he]

/-- Witness for C3 at a two-task cyclic set. -/
theorem malformed_graph_witness :
    (∃ e, (runCrew cyclicTasks stubInfer).1 = .error (.graph e)) ∧
    (runCrew cyclicTasks stubInfer).2.invocations = [] := by
  refine malformed_graph_rejected_before_dispatch cyclicTasks stubInfer (Or.inl ⟨0, ?_⟩)
  exact Relation.TransGen.tail
    (Relation.TransGen.single ⟨⟨0, "", "", stubAgent, [1]⟩, by simp [cyclicTasks], rfl, by decide⟩)
    ⟨⟨1, "", "", stubAgent, [0]⟩, by simp [cyclicTasks], rfl, by decide⟩

/-- C4: in any run, a task transitively depending on an own-failed task A is
marked Failed by propagation and its Worker is never invoked; every propagated
failure points at an originating own-failed ancestor; and a run-level
rootFailure error names a task that failed on its own (the originating
failure), never a downstream propagated one. -/
theorem failure_propagation_blast_radius (tasks : List MTask)
    (infer : Agent → String → InferenceResult) :
    (∀ A t fA, alookup (runCrew tasks infer).2.outcomes A = some (.failedOwn fA) →
      dependsOn tasks t A →
      (∃ r, alookup (runCrew tasks infer).2.outcomes t = some (.failedDep r)) ∧
        ∀ p, (t, p) ∉ (runCrew tasks infer).2.invocations) ∧
    (∀ i r, alookup (runCrew tasks infer).2.outcomes i = some (.failedDep r) →
      dependsOn tasks i r ∧
        ∃ f, alookup (runCrew tasks infer).2.outcomes r = some (.failedOwn f)) ∧
    (∀ r f, (runCrew tasks infer).1 = .error (.rootFailure r f) →
      alookup (runCrew tasks infer).2.outcomes r = some (.failedOwn f)) := by
  cases hb : buildOrder tasks with
  | error e =>
      simp only [runCrew, hb]
      refine ⟨?_, ?_, ?_⟩
      · intro A t fA hA _
        simp [alookup] at hA
      · intro i r h
        simp [alookup] at h
      · intro r f h
        simp at h
  | ok ord =>
      have hI := runCrew_execInv infer hb
      obtain ⟨hinj, hnd, hsub, hord, hall⟩ := buildOrder_ok_spec hb
      simp only [runCrew, hb]
      refine ⟨?_, ?_, ?_⟩
      · intro A t fA hA hTG
        induction hTG using Relation.TransGen.head_induction_on with
        | base h =>
            rcases h with ⟨u, hu, huid, hAc⟩
            subst huid
            rcases hI.step_shape u hu (hall u hu) with ⟨r, hr⟩ | hcomps
            · exact ⟨⟨r, hr⟩, (hI.dep_root u.id r hr).2.2⟩
            · obtain ⟨s, hsA⟩ := hcomps A hAc
              rw [hA] at hsA
              simp at hsA
        | ih h' hTG2 ihp =>
            rcases h' with ⟨u, hu, huid, hcC⟩
            subst huid
            obtain ⟨⟨r', hr'⟩, -⟩ := ihp
            rcases hI.step_shape u hu (hall u hu) with ⟨r, hr⟩ | hcomps
            · exact ⟨⟨r, hr⟩, (hI.dep_root u.id r hr).2.2⟩
            · obtain ⟨s, hsc⟩ := hcomps _ hcC
              rw [hr'] at hsc
              simp at hsc
      · intro i r h
        obtain ⟨⟨f, hf⟩, hTG, -⟩ := hI.dep_root i r h
        exact ⟨hTG, f, hf⟩
      · intro r f h
        exact runResult_rootFailure h

/-- C5: for every artifact and a collaborator that never fails, the decision
task is dispatched with a resolved prompt into which, for every dependency
identity, that dependency's Completed Result from the Execution Context is
substituted, delimited by a marker naming the Worker that produced it. -/
theorem decision_prompt_substitutes_results
    (infer : Agent → String → InferenceResult) (code : String) (hal : AllOk infer) :
    ∃ p, (4, p) ∈ (run_code_review infer code).2.invocations ∧
      ∀ d ∈ (decision_task code).context, ∃ s pre post,
        alookup (run_code_review infer code).2.outcomes d = some (.completed s) ∧
        p = pre ++ (("\n\n--- Result from " ++ workerRoleOf (create_review_tasks code) d ++
          " ---\n" ++ s) ++ post) := by
  have hbo := buildOrder_create code
  have hI := runCrew_execInv infer hbo
  obtain ⟨hcompl, htrace⟩ := allok_run hbo hal
  simp only [run_code_review, runCrew, hbo]
  have h4 : (4 : TaskId) ∈ (execAll infer (create_review_tasks code) [0, 1, 2, 3, 4]
      ⟨[], []⟩).invocations.map Prod.fst := by
    rw [htrace]; decide
  obtain ⟨⟨i, p⟩, hpm, hpi⟩ := List.mem_map.mp h4
  obtain rfl : i = 4 := hpi
  obtain ⟨t, hft, hp, hdeps⟩ := hI.inv_prompt 4 p hpm
  rw [findTask_create_four] at hft
  obtain rfl := Option.some.inj hft
  refine ⟨p, hpm, ?_⟩
  intro d hd
  obtain ⟨s, hs⟩ := hdeps d hd
  have hsec := depSection_of_completed (create_review_tasks code) hs
  have hmm : depSection (create_review_tasks code)
      (execAll infer (create_review_tasks code) [0, 1, 2, 3, 4] ⟨[], []⟩) d ∈
      (decision_task code).context.map (depSection (create_review_tasks code)
        (execAll infer (create_review_tasks code) [0, 1, 2, 3, 4] ⟨[], []⟩)) :=
    List.mem_map_of_mem _ hd
  obtain ⟨pre, post, hcat⟩ := concatAll_contains hmm ((decision_task code).description)
  refine ⟨s, pre, post, hs, ?_⟩
  calc p = resolveTemplate (create_review_tasks code)
        (execAll infer (create_review_tasks code) [0, 1, 2, 3, 4] ⟨[], []⟩)
        (decision_task code) := hp
    _ = pre ++ (depSection (create_review_tasks code)
        (execAll infer (create_review_tasks code) [0, 1, 2, 3, 4] ⟨[], []⟩) d ++ post) := hcat
    _ = pre ++ (("\n\n--- Result from " ++ workerRoleOf (create_review_tasks code) d ++
        " ---\n" ++ s) ++ post) := by rw [hsec]

/-- Witness for C5 at the stub collaborator and artifact "x". -/
theorem decision_prompt_witness :
    ∃ p, (4, p) ∈ (run_code_review stubInfer "x").2.invocations ∧
      ∀ d ∈ (decision_task "x").context, ∃ s pre post,
        alookup (run_code_review stubInfer "x").2.outcomes d = some (.completed s) ∧
        p = pre ++ (("\n\n--- Result from " ++ workerRoleOf (create_review_tasks "x") d ++
          " ---\n" ++ s) ++ post) :=
  decision_prompt_substitutes_results stubInfer "x" allok_stubInfer

/-- C6 (amended): the engine dispatches sequentially, one task at a time in
submission order — the spec (section 9) records this as the source system's
behaviour. In every run of the embedded set the four mutually independent
review tasks are invoked in exactly the fixed order quality, security,
frontend, infrastructure (ids 0, 1, 2, 3), followed by the decision task or by
nothing; independent tasks never complete in any other relative order. -/
theorem independent_tasks_complete_in_fixed_order
    (infer : Agent → String → InferenceResult) (code : String) :
    ∃ tail, (run_code_review infer code).2.invocations.map Prod.fst = [0, 1, 2, 3] ++ tail ∧
      (tail = [] ∨ tail = [4]) :=
  run_trace_shape infer code

/-- C6 (counterexample): there is no collaborator behaviour under which the
security task (id 1, no dependencies, Ready from the start) completes before
the quality task (id 0, independent of it): the claimed
"either relative order across runs" is impossible, because the engine blocks
every Ready task while the earlier-listed one is in flight. -/
theorem independent_tasks_never_swap_order :
    ¬ ∃ infer : Agent → String → InferenceResult,
      listPos ((run_code_review infer "x").2.invocations.map Prod.fst) 1 <
        listPos ((run_code_review infer "x").2.invocations.map Prod.fst) 0 := by
  rintro ⟨infer, h⟩
  obtain ⟨tail, htr, -⟩ := run_trace_shape infer "x"
  rw [htr] at h
  simp [listPos] at h

/-- C7: a Worker invocation turns an unreachable collaborator, an error
status, or an empty response into a WorkerFailure carrying the Worker identity
(its role) and the underlying cause; a success is exactly the collaborator's
nonempty response, never a substituted default; and every own-failure a run
records carries the owning Worker's role. -/
theorem worker_failure_reporting (a : Agent) (ans : InferenceResult) :
    (ans = .unreachable →
      executeWorker a ans = .error ⟨a.role, "collaborator unreachable"⟩) ∧
    (∀ c, ans = .errorStatus c →
      executeWorker a ans = .error ⟨a.role, "collaborator returned error status " ++
        toString c⟩) ∧
    (ans = .response "" →
      executeWorker a ans = .error ⟨a.role, "collaborator response is empty"⟩) ∧
    (∀ f, executeWorker a ans = .error f → f.worker = a.role) ∧
    (∀ s, executeWorker a ans = .ok s → ans = .response s ∧ s ≠ "") ∧
    (∀ tasks infer i f,
      alookup (runCrew tasks infer).2.outcomes i = some (.failedOwn f) →
      ∃ t, findTask tasks i = some t ∧ f.worker = t.agent.role) := by
  refine ⟨?_, ?_, ?_, ?_, ?_, ?_⟩
  · rintro rfl; rfl
  · rintro c rfl; rfl
  · rintro rfl; rfl
  · intro f hf
    exact executeWorker_error_worker hf
  · intro s hs
    cases ans with
    | unreachable => exact absurd hs (by simp [executeWorker])
    | errorStatus c => exact absurd hs (by simp [executeWorker])
    | response t =>
        by_cases ht : t = ""
        · exact absurd hs (by simp [executeWorker, ht])
        · simp only [executeWorker, if_neg ht] at hs
          obtain rfl := Except.ok.inj hs
          exact ⟨rfl, ht⟩
  · intro tasks infer i f h
    cases hb : buildOrder tasks with
    | error e =>
        simp only [runCrew, hb] at h
        simp [alookup] at h
    | ok ord =>
        simp only [runCrew, hb] at h
        obtain ⟨t, p, hft, -, hw⟩ := (runCrew_execInv infer hb).prov_err i f h
        exact ⟨t, hft, executeWorker_error_worker hw⟩

/-- C8: for every input artifact, create_review_tasks returns exactly five
tasks in the fixed order quality, security, frontend, infrastructure, decision
(ids 0..4); the first four declare no dependencies; the decision task is last
and its dependency set is exactly the four preceding tasks, so the terminal
task transitively depends on every other task of the set. -/
theorem create_review_tasks_shape (code : String) :
    (create_review_tasks code).length = 5 ∧
    taskIds (create_review_tasks code) = [0, 1, 2, 3, 4] ∧
    (create_review_tasks code).map (fun t => t.context) = [[], [], [], [], [0, 1, 2, 3]] ∧
    (create_review_tasks code).map (fun t => t.agent.role) =
      ["Code Review Engineer", "Security Analyst", "Frontend Review Engineer",
        "Infrastructure Analyst", "Technical Lead Reviewer"] ∧
    (create_review_tasks code).getLast? = some (decision_task code) ∧
    (decision_task code).context = [0, 1, 2, 3] ∧
    ∀ i ∈ [0, 1, 2, 3], dependsOn (create_review_tasks code) 4 i := by
  refine ⟨rfl, rfl, rfl, rfl, rfl, rfl, ?_⟩
  intro i hi
  simp only [List.mem_cons, List.not_mem_nil, or_false] at hi
  rcases hi with rfl | rfl | rfl | rfl <;>
    exact Relation.TransGen.single ⟨decision_task code, by simp [create_review_tasks], rfl, by
      rw [show (decision_task code).context = [0, 1, 2, 3] from rfl]; decide⟩

/-- C9: for every input string, each of the five tasks returned by
create_review_tasks embeds the artifact under review verbatim, as a contiguous
substring, in its description template. -/
theorem task_descriptions_embed_code (code : String) :
    ∀ t ∈ create_review_tasks code, ContainsStr t.description code := by
  intro t ht
  simp only [create_review_tasks, List.mem_cons, List.not_mem_nil, or_false] at ht
  rcases ht with rfl | rfl | rfl | rfl | rfl <;>
    exact ⟨_, _, String.append_assoc _ _ _⟩

/-- Witness for C9 at the quality task and artifact "abc". -/
theorem task_descriptions_embed_witness :
    ContainsStr (quality_task "abc").description "abc" :=
  task_descriptions_embed_code "abc" (quality_task "abc") (by simp [create_review_tasks])

/-- C10: loading the engine module fails with the ValueError message naming
ANTHROPIC_API_KEY whenever the variable is unset or empty in the environment
left by loading the .env file, so the run entry point is never obtained
without a configured credential. -/
theorem api_key_guard_blocks_load (env : String → Option String)
    (h : env "ANTHROPIC_API_KEY" = none ∨ env "ANTHROPIC_API_KEY" = some "") :
    load_crew_module env = .error "ANTHROPIC_API_KEY not found. Check your .env file!" ∧
    ContainsStr "ANTHROPIC_API_KEY not found. Check your .env file!" "ANTHROPIC_API_KEY" := by
  refine ⟨?_, "", " not found. Check your .env file!", rfl⟩
  rcases h with h | h <;> simp [load_crew_module, h]

/-- Witness for C10 at the empty environment. -/
theorem api_key_guard_witness :
    load_crew_module (fun _ => none) =
      .error "ANTHROPIC_API_KEY not found. Check your .env file!" ∧
    ContainsStr "ANTHROPIC_API_KEY not found. Check your .env file!" "ANTHROPIC_API_KEY" :=
  api_key_guard_blocks_load (fun _ => none) (Or.inl rfl)
